import Mathlib

/-!
Verification of the conditional mean spectrum vector (CMSV) computation of
`pygmm/kishida_2017.py` and the parameter table of `pygmm/idriss_2014.py`.

Real numbers are modelled by `ℚ` (the claims under scrutiny are exact
algebraic identities, valid in exact arithmetic).  The inter-period
correlation function `calc_correl` (from `baker_jayaram_2008`, an external
collaborator per the spec) and the elementwise square root `np.sqrt` are
modelled as function parameters: the code consumes them as black boxes.
`np.linalg.inv` is modelled by an executable adjugate/determinant inverse
that fails (like `np.linalg.inv` raising `LinAlgError`) exactly on singular
input.
-/

/-! ### Vectors, boolean masks and matrices (numpy primitives) -/

abbrev Vec := List ℚ

abbrev Mat := List (List ℚ)

/-- Boolean-mask fancy indexing `xs[m]`: keep the entries whose mask bit is
`True`, in order. -/
def boolSelect {α : Type} : List α → List Bool → List α
  | _, [] => []
  | [], _ => []
  | x :: xs, b :: bs => if b then x :: boolSelect xs bs else boolSelect xs bs

/-- Mask negation `~m`. -/
def negMask : List Bool → List Bool
  | [] => []
  | b :: bs => (!b) :: negMask bs

/-- Number of `True` bits (numpy `np.ma.count_masked` on the mask). -/
def countTrue : List Bool → Nat
  | [] => 0
  | b :: bs => (if b then 1 else 0) + countTrue bs

/-- Number of `False` bits (numpy `MaskedArray.count()` on the mask). -/
def countFalse : List Bool → Nat
  | [] => 0
  | b :: bs => (if b then 0 else 1) + countFalse bs

/-- `np.all(np.diff(xs) > 0)`: every consecutive difference is positive. -/
def diffsPos : Vec → Bool
  | [] => true
  | [_] => true
  | a :: b :: t => (decide (a < b)) && diffsPos (b :: t)

/-- Dot product of two flat arrays (truncating at the shorter). -/
def dotProd : Vec → Vec → ℚ
  | x :: xs, y :: ys => x * y + dotProd xs ys
  | _, _ => 0

/-- Column `j` of a matrix. -/
def colM (m : Mat) (j : Nat) : Vec := m.map (fun row => row.getD j 0)

/-- Width of a matrix: length of its first row. -/
def widthM (m : Mat) : Nat := (m.headD []).length

/-- Matrix product `a @ b`. -/
def matMul (a b : Mat) : Mat :=
  a.map (fun row => (List.range (widthM b)).map (fun j => dotProd row (colM b j)))

/-- Matrix transpose (`.T`). -/
def transposeM (m : Mat) : Mat := (List.range (widthM m)).map (colM m)

/-- `np.diag` of a vector: the diagonal matrix. -/
def diagMat : Vec → Mat
  | [] => []
  | x :: xs => (x :: List.replicate xs.length 0) :: (diagMat xs).map (fun r => 0 :: r)

/-- Matrix–vector product (`A @ v` with `v` a column, then `np.ravel`). -/
def matVec (a : Mat) (v : Vec) : Vec := a.map (fun row => dotProd row v)

/-- Elementwise matrix difference. -/
def matSub (a b : Mat) : Mat := List.zipWith (fun r s => List.zipWith (· - ·) r s) a b

/-- Elementwise vector sum. -/
def zipAdd (a b : Vec) : Vec := List.zipWith (· + ·) a b

/-- Elementwise vector difference. -/
def zipSub (a b : Vec) : Vec := List.zipWith (· - ·) a b

/-- `np.diag` of a matrix: its diagonal. -/
def diagOf (m : Mat) : Vec := (List.range m.length).map (fun i => (m.getD i []).getD i 0)

/-- Remove entry `j` from a list. -/
def dropNth {α : Type} (xs : List α) (j : Nat) : List α := xs.take j ++ xs.drop (j + 1)

/-- Laplace expansion of the determinant along the first row, with a fuel
argument for structural termination. -/
def detMAux : Nat → Mat → ℚ
  | 0, _ => 1
  | _ + 1, [] => 1
  | fuel + 1, r :: rest =>
    ((List.range r.length).map (fun j =>
      (-1 : ℚ) ^ j * r.getD j 0 * detMAux fuel (rest.map (fun row => dropNth row j)))).sum

/-- Determinant of a square matrix. -/
def detM (m : Mat) : ℚ := detMAux m.length m

/-- `np.linalg.inv`: the adjugate inverse; `none` on singular input
(`np.linalg.LinAlgError`). -/
def matInv (m : Mat) : Option Mat :=
  if detM m = 0 then none
  else some ((List.range m.length).map (fun i => (List.range m.length).map (fun j =>
    (-1 : ℚ) ^ (i + j) * detM ((dropNth m j).map (fun row => dropNth row i)) / detM m)))

/-- The lexicographic (value, position) comparison used to model
`np.argsort xs`: position `i` precedes position `j`. -/
def argR (xs : Vec) (i j : Nat) : Prop :=
  xs.getD i 0 < xs.getD j 0 ∨ (xs.getD i 0 = xs.getD j 0 ∧ i ≤ j)

instance argR.instDecidable (xs : Vec) : DecidableRel (argR xs) := fun i j => by
  unfold argR; exact inferInstance

/-- `np.argsort xs`: the permutation of positions that sorts `xs` by value.
On arrays with pairwise-distinct values (the only ones reaching the argsort
in the program, since `periods` is validated strictly increasing) every
correct sort returns the same permutation. -/
def argsort (xs : Vec) : List Nat :=
  List.insertionSort (argR xs) (List.range xs.length)

/-! ### The Kishida (2017) CMSV computation, `pygmm/kishida_2017.py` -/

/-- `np.ma.masked_array`: data values with a parallel boolean mask;
a `True` mask bit means the entry is masked (hidden / not observed). -/
structure MaskedArray where
  data : Vec
  mask : List Bool

/-- The errors the computation can surface: the explicit `ValueError` for
non-increasing periods, and `np.linalg.LinAlgError` from `np.linalg.inv`. -/
inductive CmsvError
  | orderingError
  | numericalError
deriving DecidableEq

/-- Line 56: `periods_grouped = np.r_[periods[mask], periods[~mask]]`. -/
def periods_grouped (periods : Vec) (mask : List Bool) : Vec :=
  boolSelect periods mask ++ boolSelect periods (negMask mask)

/-- Line 58: `mat_ln_std = np.diag(np.r_[ln_stds[mask], ln_stds[~mask]])`. -/
def mat_ln_std (ln_stds : Vec) (mask : List Bool) : Mat :=
  diagMat (boolSelect ln_stds mask ++ boolSelect ln_stds (negMask mask))

/-- Lines 60–61: `mat_correl = np.vstack([calc_correl(periods_grouped, pc)
for pc in periods_grouped]).T`, with `calc_correl ps pc = [correl p pc for p
in ps]` for the underlying pairwise correlation function `correl`. -/
def mat_correl (correl : ℚ → ℚ → ℚ) (pg : Vec) : Mat :=
  transposeM (pg.map (fun period_cond => pg.map (fun p => correl p period_cond)))

/-- Line 63: `mat_covar = mat_ln_std @ mat_correl @ mat_ln_std`. -/
def mat_covar (correl : ℚ → ℚ → ℚ) (periods ln_stds : Vec) (mask : List Bool) : Mat :=
  matMul (matMul (mat_ln_std ln_stds mask) (mat_correl correl (periods_grouped periods mask)))
    (mat_ln_std ln_stds mask)

/-- Line 66: `mat_covar_11 = mat_covar[0:n, 0:n]` with
`n = np.ma.count_masked(ln_psas_cond)`. -/
def mat_covar_11 (correl : ℚ → ℚ → ℚ) (periods ln_stds : Vec) (mask : List Bool) : Mat :=
  ((mat_covar correl periods ln_stds mask).take (countTrue mask)).map
    (fun r => r.take (countTrue mask))

/-- Line 67: `mat_covar_22 = mat_covar[n:, n:]`. -/
def mat_covar_22 (correl : ℚ → ℚ → ℚ) (periods ln_stds : Vec) (mask : List Bool) : Mat :=
  ((mat_covar correl periods ln_stds mask).drop (countTrue mask)).map
    (fun r => r.drop (countTrue mask))

/-- Line 68: `mat_covar_12 = mat_covar[0:n, n:]`. -/
def mat_covar_12 (correl : ℚ → ℚ → ℚ) (periods ln_stds : Vec) (mask : List Bool) : Mat :=
  ((mat_covar correl periods ln_stds mask).take (countTrue mask)).map
    (fun r => r.drop (countTrue mask))

/-- Line 69: `mat_covar_21 = mat_covar[n:, 0:n]`. -/
def mat_covar_21 (correl : ℚ → ℚ → ℚ) (periods ln_stds : Vec) (mask : List Bool) : Mat :=
  ((mat_covar correl periods ln_stds mask).drop (countTrue mask)).map
    (fun r => r.take (countTrue mask))

/-- Line 72: `mat_total_resids = np.asmatrix(ln_psas_cond[~mask] -
ln_psas[~mask]).T` (as a flat vector). -/
def mat_total_resids (ln_psas : Vec) (ln_psas_cond : MaskedArray) : Vec :=
  zipSub (boolSelect ln_psas_cond.data (negMask ln_psas_cond.mask))
    (boolSelect ln_psas (negMask ln_psas_cond.mask))

/-- Lines 73–77: the grouped conditional means, free periods first:
`np.r_[ln_psas[mask] + np.ravel(mat_covar_12 @ mat_covar_22_inv @
mat_total_resids), ln_psas_cond[~mask].data]`. -/
def ln_psas_cmsv_grouped (correl : ℚ → ℚ → ℚ) (periods ln_psas ln_stds : Vec)
    (ln_psas_cond : MaskedArray) (mat_covar_22_inv : Mat) : Vec :=
  zipAdd (boolSelect ln_psas ln_psas_cond.mask)
    (matVec (matMul (mat_covar_12 correl periods ln_stds ln_psas_cond.mask) mat_covar_22_inv)
      (mat_total_resids ln_psas ln_psas_cond))
  ++ boolSelect ln_psas_cond.data (negMask ln_psas_cond.mask)

/-- Lines 79–83: the grouped conditional stds, free periods first:
`np.r_[np.sqrt(np.diag(mat_covar_11 - mat_covar_12 @ mat_covar_22_inv @
mat_covar_21)), np.zeros(ln_psas_cond.count())]`. -/
def ln_stds_cmsv_grouped (correl : ℚ → ℚ → ℚ) (sqrtQ : ℚ → ℚ) (periods ln_stds : Vec)
    (ln_psas_cond : MaskedArray) (mat_covar_22_inv : Mat) : Vec :=
  (diagOf (matSub (mat_covar_11 correl periods ln_stds ln_psas_cond.mask)
    (matMul (matMul (mat_covar_12 correl periods ln_stds ln_psas_cond.mask) mat_covar_22_inv)
      (mat_covar_21 correl periods ln_stds ln_psas_cond.mask)))).map sqrtQ
  ++ List.replicate (countFalse ln_psas_cond.mask) 0

/-- `calc_cond_mean_spectrum_vector` of `pygmm/kishida_2017.py`, lines 8–89.
`correl` is the black-box `calc_correl` pairwise correlation and `sqrtQ`
models `np.sqrt`.  Lines 84–89: both grouped vectors are re-indexed by
`np.argsort(periods_grouped)` before being returned. -/
def calc_cond_mean_spectrum_vector (correl : ℚ → ℚ → ℚ) (sqrtQ : ℚ → ℚ)
    (periods ln_psas ln_stds : Vec) (ln_psas_cond : MaskedArray) :
    Except CmsvError (Vec × Vec) :=
  if diffsPos periods = false then .error .orderingError
  else
    match matInv (mat_covar_22 correl periods ln_stds ln_psas_cond.mask) with
    | none => .error .numericalError
    | some mat_covar_22_inv =>
      .ok ((argsort (periods_grouped periods ln_psas_cond.mask)).map
             (fun i => (ln_psas_cmsv_grouped correl periods ln_psas ln_stds ln_psas_cond
               mat_covar_22_inv).getD i 0),
           (argsort (periods_grouped periods ln_psas_cond.mask)).map
             (fun i => (ln_stds_cmsv_grouped correl sqrtQ periods ln_stds ln_psas_cond
               mat_covar_22_inv).getD i 0))

/-! ### Spec-side definitions used to state the refinement claims -/

/-- The covariance block between a row group (periods `pa`, stds `sa`) and a
column group (periods `pb`, stds `sb`): entry `(i, j)` is
`sa[i] * correl(pa[i], pb[j]) * sb[j]` (spec §3, CovarianceMatrix). -/
def covBlock (correl : ℚ → ℚ → ℚ) (pa sa pb sb : Vec) : Mat :=
  (List.range pa.length).map (fun i => (List.range pb.length).map (fun j =>
    sa.getD i 0 * correl (pa.getD i 0) (pb.getD j 0) * sb.getD j 0))

/-- Rank of position `k` among the `True` mask bits before it. -/
def rankTrue (m : List Bool) (k : Nat) : Nat := countTrue (m.take k)

/-- Rank of position `k` among the `False` mask bits before it. -/
def rankFalse (m : List Bool) (k : Nat) : Nat := countFalse (m.take k)

/-- Interleave two lists back according to a mask: position `k` takes the
next entry of `u` if the mask bit is `True`, of `v` otherwise. -/
def unselectD {α : Type} (d : α) : List Bool → List α → List α → List α
  | [], _, _ => []
  | true :: m, us, vs => us.headD d :: unselectD d m us.tail vs
  | false :: m, us, vs => vs.headD d :: unselectD d m us vs.tail

/-! ### Basic lemmas about masks, selection and interleaving -/

theorem boolSelect_nil_mask {α : Type} (x : List α) : boolSelect x ([] : List Bool) = [] := by
  cases x <;> rfl

theorem boolSelect_cons_true {α : Type} (x : α) (xs : List α) (bs : List Bool) :
    boolSelect (x :: xs) (true :: bs) = x :: boolSelect xs bs := rfl

theorem boolSelect_cons_false {α : Type} (x : α) (xs : List α) (bs : List Bool) :
    boolSelect (x :: xs) (false :: bs) = boolSelect xs bs := rfl

theorem negMask_cons (b : Bool) (bs : List Bool) : negMask (b :: bs) = (!b) :: negMask bs := rfl

theorem countTrue_negMask (m : List Bool) : countTrue (negMask m) = countFalse m := by
  induction m with
  | nil => rfl
  | cons b bs ih => cases b <;> simp [negMask_cons, countTrue, countFalse, ih]

theorem countFalse_negMask (m : List Bool) : countFalse (negMask m) = countTrue m := by
  induction m with
  | nil => rfl
  | cons b bs ih => cases b <;> simp [negMask_cons, countTrue, countFalse, ih]

theorem countTrue_add_countFalse (m : List Bool) : countTrue m + countFalse m = m.length := by
  induction m with
  | nil => rfl
  | cons b bs ih => cases b <;> simp [countTrue, countFalse] <;> omega

theorem length_boolSelect {α : Type} (m : List Bool) (x : List α) (h : x.length = m.length) :
    (boolSelect x m).length = countTrue m := by
  induction m generalizing x with
  | nil => cases x with
    | nil => rfl
    | cons a as => simp at h
  | cons b bs ih =>
    cases x with
    | nil => simp at h
    | cons a as =>
      simp only [List.length_cons, Nat.succ.injEq] at h
      cases b with
      | true =>
        simp [boolSelect_cons_true, countTrue, ih as h]
        omega
      | false => simp [boolSelect_cons_false, countTrue, ih as h]

theorem length_negMask (m : List Bool) : (negMask m).length = m.length := by
  induction m with
  | nil => rfl
  | cons b bs ih => simp [negMask_cons, ih]

theorem length_boolSelect_neg {α : Type} (m : List Bool) (x : List α) (h : x.length = m.length) :
    (boolSelect x (negMask m)).length = countFalse m := by
  rw [length_boolSelect (negMask m) x (by rw [h, length_negMask]), countTrue_negMask]

theorem headD_eq_getD {α : Type} (x : List α) (d : α) : x.headD d = x.getD 0 d := by
  cases x <;> rfl

theorem tail_getD {α : Type} (x : List α) (n : Nat) (d : α) :
    x.tail.getD n d = x.getD (n + 1) d := by
  cases x <;> rfl

theorem diffsPos_iff_chain (l : Vec) : diffsPos l = true ↔ l.Chain' (· < ·) := by
  induction l with
  | nil => simp [diffsPos]
  | cons a t ih =>
    cases t with
    | nil => simp [diffsPos]
    | cons b t' =>
      rw [List.chain'_cons, ← ih]
      simp [diffsPos]

theorem diffsPos_getElem_lt (l : Vec) (h : diffsPos l = true) {i j : Nat} (hij : i < j)
    (hi : i < l.length) (hj : j < l.length) : l[i] < l[j] := by
  have hp : l.Pairwise (· < ·) := List.chain'_iff_pairwise.mp ((diffsPos_iff_chain l).mp h)
  exact List.pairwise_iff_getElem.mp hp i j (lt_trans hij hj) hj hij

theorem unselectD_cons_true {α : Type} (d : α) (m : List Bool) (u v : List α) :
    unselectD d (true :: m) u v = u.headD d :: unselectD d m u.tail v := rfl

theorem unselectD_cons_false {α : Type} (d : α) (m : List Bool) (u v : List α) :
    unselectD d (false :: m) u v = v.headD d :: unselectD d m u v.tail := rfl

theorem length_unselectD {α : Type} (d : α) (m : List Bool) (u v : List α) :
    (unselectD d m u v).length = m.length := by
  induction m generalizing u v with
  | nil => rfl
  | cons b bs ih =>
    cases b <;> simp [unselectD_cons_true, unselectD_cons_false, ih]

theorem unselectD_getD_true {α : Type} (d : α) (m : List Bool) (u v : List α) (k : Nat)
    (hk : m.getD k false = true) :
    (unselectD d m u v).getD k d = u.getD (countTrue (m.take k)) d := by
  induction m generalizing u v k with
  | nil => simp [List.getD] at hk
  | cons b bs ih =>
    cases k with
    | zero =>
      cases b with
      | false => simp at hk
      | true =>
        rw [unselectD_cons_true, List.take_zero, List.getD_cons_zero]
        exact headD_eq_getD u d
    | succ k' =>
      have hk' : bs.getD k' false = true := by simpa using hk
      cases b with
      | true =>
        rw [unselectD_cons_true, List.getD_cons_succ, ih u.tail v k' hk', tail_getD,
          List.take_succ_cons]
        have : countTrue (true :: bs.take k') = countTrue (bs.take k') + 1 := by
          simp [countTrue]; omega
        rw [this]
      | false =>
        rw [unselectD_cons_false, List.getD_cons_succ, ih u v.tail k' hk', List.take_succ_cons]
        have : countTrue (false :: bs.take k') = countTrue (bs.take k') := by simp [countTrue]
        rw [this]

theorem unselectD_getD_false {α : Type} (d : α) (m : List Bool) (u v : List α) (k : Nat)
    (hk : m.getD k false = false) (hlen : k < m.length) :
    (unselectD d m u v).getD k d = v.getD (countFalse (m.take k)) d := by
  induction m generalizing u v k with
  | nil => simp at hlen
  | cons b bs ih =>
    cases k with
    | zero =>
      cases b with
      | true => simp at hk
      | false =>
        rw [unselectD_cons_false, List.take_zero, List.getD_cons_zero]
        exact headD_eq_getD v d
    | succ k' =>
      have hk' : bs.getD k' false = false := by simpa using hk
      have hlen' : k' < bs.length := by simpa using hlen
      cases b with
      | true =>
        rw [unselectD_cons_true, List.getD_cons_succ, ih u.tail v k' hk' hlen',
          List.take_succ_cons]
        have : countFalse (true :: bs.take k') = countFalse (bs.take k') := by simp [countFalse]
        rw [this]
      | false =>
        rw [unselectD_cons_false, List.getD_cons_succ, ih u v.tail k' hk' hlen', tail_getD,
          List.take_succ_cons]
        have : countFalse (false :: bs.take k') = countFalse (bs.take k') + 1 := by
          simp [countFalse]; omega
        rw [this]

theorem countTrue_take_lt (m : List Bool) (k : Nat) (hk : m.getD k false = true) :
    countTrue (m.take k) < countTrue m := by
  induction m generalizing k with
  | nil => simp [List.getD] at hk
  | cons b bs ih =>
    cases k with
    | zero => cases b with
      | false => simp at hk
      | true => simp [countTrue]
    | succ k' =>
      have hk' : bs.getD k' false = true := by simpa using hk
      have := ih k' hk'
      cases b <;> simp [List.take_succ_cons, countTrue] <;> omega

theorem countFalse_take_lt (m : List Bool) (k : Nat) (hk : m.getD k false = false)
    (hlen : k < m.length) : countFalse (m.take k) < countFalse m := by
  induction m generalizing k with
  | nil => simp at hlen
  | cons b bs ih =>
    cases k with
    | zero => cases b with
      | true => simp at hk
      | false => simp [countFalse]
    | succ k' =>
      have hk' : bs.getD k' false = false := by simpa using hk
      have hlen' : k' < bs.length := by simpa using hlen
      have := ih k' hk' hlen'
      cases b <;> simp [List.take_succ_cons, countFalse] <;> omega

theorem boolSelect_getD_rankTrue {α : Type} (m : List Bool) (x : List α) (k : Nat) (d : α)
    (h : x.length = m.length) (hk : m.getD k false = true) :
    (boolSelect x m).getD (countTrue (m.take k)) d = x.getD k d := by
  induction m generalizing x k with
  | nil => simp [List.getD] at hk
  | cons b bs ih =>
    cases x with
    | nil => simp at h
    | cons a as =>
      simp only [List.length_cons, Nat.succ.injEq] at h
      cases k with
      | zero =>
        cases b with
        | false => simp at hk
        | true =>
          rw [boolSelect_cons_true, List.take_zero]
          rfl
      | succ k' =>
        have hk' : bs.getD k' false = true := by simpa using hk
        cases b with
        | true =>
          rw [boolSelect_cons_true, List.take_succ_cons]
          have : countTrue (true :: bs.take k') = countTrue (bs.take k') + 1 := by
            simp [countTrue]; omega
          rw [this, List.getD_cons_succ, List.getD_cons_succ, ih as k' h hk']
        | false =>
          rw [boolSelect_cons_false, List.take_succ_cons]
          have : countTrue (false :: bs.take k') = countTrue (bs.take k') := by
            simp [countTrue]
          rw [this, List.getD_cons_succ, ih as k' h hk']

theorem boolSelect_neg_getD_rankFalse {α : Type} (m : List Bool) (x : List α) (k : Nat) (d : α)
    (h : x.length = m.length) (hk : m.getD k false = false) (hlen : k < m.length) :
    (boolSelect x (negMask m)).getD (countFalse (m.take k)) d = x.getD k d := by
  induction m generalizing x k with
  | nil => simp at hlen
  | cons b bs ih =>
    cases x with
    | nil => simp at h
    | cons a as =>
      simp only [List.length_cons, Nat.succ.injEq] at h
      cases k with
      | zero =>
        cases b with
        | true => simp at hk
        | false =>
          rw [List.take_zero, negMask_cons]
          rfl
      | succ k' =>
        have hk' : bs.getD k' false = false := by simpa using hk
        have hlen' : k' < bs.length := by simpa using hlen
        cases b with
        | true =>
          rw [negMask_cons, List.take_succ_cons]
          have : countFalse (true :: bs.take k') = countFalse (bs.take k') := by
            simp [countFalse]
          rw [this]
          simp only [Bool.not_true, boolSelect_cons_false]
          rw [List.getD_cons_succ, ih as k' h hk' hlen']
        | false =>
          rw [negMask_cons, List.take_succ_cons]
          have : countFalse (false :: bs.take k') = countFalse (bs.take k') + 1 := by
            simp [countFalse]; omega
          rw [this]
          simp only [Bool.not_false, boolSelect_cons_true]
          rw [List.getD_cons_succ, List.getD_cons_succ, ih as k' h hk' hlen']

/-! ### Interleaving is a permutation and inverts grouping -/

theorem unselectD_perm {α : Type} (d : α) (m : List Bool) (u v : List α)
    (hu : u.length = countTrue m) (hv : v.length = countFalse m) :
    (unselectD d m u v).Perm (u ++ v) := by
  induction m generalizing u v with
  | nil =>
    have hu0 : u = [] := List.length_eq_zero.mp (by simpa [countTrue] using hu)
    have hv0 : v = [] := List.length_eq_zero.mp (by simpa [countFalse] using hv)
    subst hu0; subst hv0
    rfl
  | cons b bs ih =>
    cases b with
    | true =>
      cases u with
      | nil => simp [countTrue] at hu; omega
      | cons a us =>
        have hu' : us.length = countTrue bs := by simp [countTrue] at hu; omega
        rw [unselectD_cons_true]
        exact ((ih us v hu' (by simpa [countFalse] using hv)).cons a)
    | false =>
      cases v with
      | nil => simp [countFalse] at hv; omega
      | cons c vs =>
        have hv' : vs.length = countFalse bs := by simp [countFalse] at hv; omega
        rw [unselectD_cons_false]
        exact ((ih u vs (by simpa [countTrue] using hu) hv').cons c).trans
          List.perm_middle.symm

theorem unselectD_boolSelect {α : Type} (d : α) (m : List Bool) (x : List α)
    (h : x.length = m.length) :
    unselectD d m (boolSelect x m) (boolSelect x (negMask m)) = x := by
  induction m generalizing x with
  | nil =>
    have : x = [] := List.length_eq_zero.mp (by simpa using h)
    subst this; rfl
  | cons b bs ih =>
    cases x with
    | nil => simp at h
    | cons a as =>
      simp only [List.length_cons, Nat.succ.injEq] at h
      cases b with
      | true =>
        rw [negMask_cons, boolSelect_cons_true]
        simp only [Bool.not_true, boolSelect_cons_false]
        rw [unselectD_cons_true]
        simp only [List.headD_cons, List.tail_cons]
        rw [ih as h]
      | false =>
        rw [negMask_cons, boolSelect_cons_false]
        simp only [Bool.not_false, boolSelect_cons_true]
        rw [unselectD_cons_false]
        simp only [List.headD_cons, List.tail_cons]
        rw [ih as h]

theorem unselectD_map_getD (m : List Bool) (G : Vec) (u v : Vec) (u' v' : List Nat)
    (hu : ∀ r, r < countTrue m → G.getD (u'.getD r 0) 0 = u.getD r 0)
    (hv : ∀ r, r < countFalse m → G.getD (v'.getD r 0) 0 = v.getD r 0) :
    (unselectD 0 m u' v').map (fun i => G.getD i 0) = unselectD (0 : ℚ) m u v := by
  induction m generalizing u v u' v' with
  | nil => rfl
  | cons b bs ih =>
    cases b with
    | true =>
      rw [unselectD_cons_true, unselectD_cons_true, List.map_cons]
      have hhead : G.getD (u'.headD 0) 0 = u.headD 0 := by
        rw [headD_eq_getD, headD_eq_getD]
        exact hu 0 (by simp [countTrue])
      rw [hhead]
      congr 1
      refine ih u.tail v u'.tail v' (fun r hr => ?_) (fun r hr => ?_)
      · rw [tail_getD, tail_getD]
        exact hu (r + 1) (by simp [countTrue] at hr ⊢; omega)
      · exact hv r (by simpa [countFalse] using hr)
    | false =>
      rw [unselectD_cons_false, unselectD_cons_false, List.map_cons]
      have hhead : G.getD (v'.headD 0) 0 = v.headD 0 := by
        rw [headD_eq_getD, headD_eq_getD]
        exact hv 0 (by simp [countFalse])
      rw [hhead]
      congr 1
      refine ih u v.tail u' v'.tail (fun r hr => ?_) (fun r hr => ?_)
      · exact hu r (by simpa [countTrue] using hr)
      · rw [tail_getD, tail_getD]
        exact hv (r + 1) (by simp [countFalse] at hr ⊢; omega)

/-! ### `getD` bookkeeping -/

theorem getD_append_left {α : Type} (a b : List α) (i : Nat) (d : α) (h : i < a.length) :
    (a ++ b).getD i d = a.getD i d := by
  rw [List.getD_eq_getElem (a ++ b) d (by simp; omega), List.getD_eq_getElem a d h,
    List.getElem_append_left h]

theorem getD_append_right {α : Type} (a b : List α) (i : Nat) (d : α) (h : i < b.length) :
    (a ++ b).getD (a.length + i) d = b.getD i d := by
  rw [List.getD_eq_getElem (a ++ b) d (by simp; omega), List.getD_eq_getElem b d h]
  rw [List.getElem_append_right (by omega)]
  congr 1
  omega

theorem getD_range (n r : Nat) (h : r < n) : (List.range n).getD r 0 = r := by
  rw [List.getD_eq_getElem _ _ (by simpa using h), List.getElem_range]

theorem getD_map_range_add (c n r : Nat) (h : r < n) :
    ((List.range n).map (fun x => c + x)).getD r 0 = c + r := by
  rw [List.getD_eq_getElem _ _ (by simpa using h), List.getElem_map, List.getElem_range]

/-! ### Properties of the argsort comparison -/

theorem argR_trans (xs : Vec) (a b c : Nat) (hab : argR xs a b) (hbc : argR xs b c) :
    argR xs a c := by
  rcases hab with h | ⟨he, hle⟩ <;> rcases hbc with h' | ⟨he', hle'⟩
  · exact Or.inl (lt_trans h h')
  · exact Or.inl (he' ▸ h)
  · exact Or.inl (he ▸ h')
  · exact Or.inr ⟨he.trans he', le_trans hle hle'⟩

theorem argR_total (xs : Vec) (a b : Nat) : argR xs a b ∨ argR xs b a := by
  rcases lt_trichotomy (xs.getD a 0) (xs.getD b 0) with h | h | h
  · exact Or.inl (Or.inl h)
  · rcases Nat.le_total a b with hab | hba
    · exact Or.inl (Or.inr ⟨h, hab⟩)
    · exact Or.inr (Or.inr ⟨h.symm, hba⟩)
  · exact Or.inr (Or.inl h)

theorem argR_antisymm (xs : Vec) (a b : Nat) (hab : argR xs a b) (hba : argR xs b a) :
    a = b := by
  rcases hab with h | ⟨he, hle⟩ <;> rcases hba with h' | ⟨he', hle'⟩
  · exact absurd h' (lt_asymm h)
  · exact absurd he' (ne_of_gt h)
  · exact absurd he (ne_of_gt h')
  · exact Nat.le_antisymm hle hle'

/-! ### The master restoration lemma: indexing the grouped arrays by
`argsort periods_grouped` interleaves them back to the original order -/

theorem argsort_restore (p : Vec) (m : List Bool) (u v : Vec)
    (hpm : p.length = m.length) (hp : diffsPos p = true)
    (hu : u.length = countTrue m) (hv : v.length = countFalse m) :
    (argsort (boolSelect p m ++ boolSelect p (negMask m))).map
      (fun i => (u ++ v).getD i 0) = unselectD 0 m u v := by
  have hselT : (boolSelect p m).length = countTrue m := length_boolSelect m p hpm
  have hselF : (boolSelect p (negMask m)).length = countFalse m :=
    length_boolSelect_neg m p hpm
  set pg : Vec := boolSelect p m ++ boolSelect p (negMask m) with hpgdef
  have hpgLen : pg.length = m.length := by
    rw [hpgdef, List.length_append, hselT, hselF, countTrue_add_countFalse]
  set tau : List Nat := unselectD 0 m (List.range (countTrue m))
    ((List.range (countFalse m)).map (fun x => countTrue m + x)) with htaudef
  have htauLen : tau.length = m.length := length_unselectD _ _ _ _
  -- Step A: reading `pg` at the positions of `tau` restores `p`.
  have hA : tau.map (fun i => pg.getD i 0) = p := by
    rw [htaudef]
    have step := unselectD_map_getD m pg (boolSelect p m) (boolSelect p (negMask m))
      (List.range (countTrue m)) ((List.range (countFalse m)).map (fun x => countTrue m + x))
      (fun r hr => by rw [getD_range _ _ hr, hpgdef, getD_append_left _ _ _ _ (by omega)])
      (fun r hr => by
        rw [getD_map_range_add _ _ _ hr, hpgdef, ← hselT,
          getD_append_right _ _ _ _ (by omega)])
    rw [step, unselectD_boolSelect 0 m p hpm]
  have htget : ∀ i, i < m.length → pg.getD (tau.getD i 0) 0 = p.getD i 0 := by
    intro i h
    have hlm : i < (tau.map (fun i => pg.getD i 0)).length := by
      rw [List.length_map, htauLen]; exact h
    have h2 : (tau.map (fun i => pg.getD i 0)).getD i 0 = p.getD i 0 := by rw [hA]
    rw [List.getD_eq_getElem _ _ hlm, List.getElem_map] at h2
    rw [List.getD_eq_getElem tau 0 (by rw [htauLen]; exact h)]
    exact h2
  -- Step B: `argsort pg = tau` by uniqueness of sorted permutations.
  haveI : IsTrans Nat (argR pg) := ⟨argR_trans pg⟩
  haveI : IsTotal Nat (argR pg) := ⟨argR_total pg⟩
  haveI : IsAntisymm Nat (argR pg) := ⟨argR_antisymm pg⟩
  have htauPerm : tau.Perm (List.range pg.length) := by
    have h1 : tau.Perm (List.range (countTrue m) ++
        (List.range (countFalse m)).map (fun x => countTrue m + x)) := by
      rw [htaudef]
      exact unselectD_perm _ _ _ _ (List.length_range _) (by simp)
    have h2 : List.range (countTrue m + countFalse m) = List.range (countTrue m) ++
        (List.range (countFalse m)).map (fun x => countTrue m + x) := by
      rw [List.range_add]
    rw [hpgLen, ← countTrue_add_countFalse m, h2]
    exact h1
  have htauSorted : tau.Sorted (argR pg) := by
    rw [List.Sorted, List.pairwise_iff_getElem]
    intro i j hi hj hij
    rw [htauLen] at hi hj
    left
    have hlt : pg.getD (tau.getD i 0) 0 < pg.getD (tau.getD j 0) 0 := by
      rw [htget i hi, htget j hj, List.getD_eq_getElem p 0 (by omega),
        List.getD_eq_getElem p 0 (by omega)]
      exact diffsPos_getElem_lt p hp hij (by omega) (by omega)
    rw [List.getD_eq_getElem tau 0 (by rw [htauLen]; exact hi),
      List.getD_eq_getElem tau 0 (by rw [htauLen]; exact hj)] at hlt
    exact hlt
  have hsorted : (argsort pg).Sorted (argR pg) := List.sorted_insertionSort (argR pg) _
  have hperm : (argsort pg).Perm (List.range pg.length) := List.perm_insertionSort (argR pg) _
  have hEq : argsort pg = tau :=
    List.eq_of_perm_of_sorted (hperm.trans htauPerm.symm) hsorted htauSorted
  -- Step C: transport the values through `tau`.
  rw [hEq, htaudef]
  refine unselectD_map_getD m (u ++ v) u v _ _ (fun r hr => ?_) (fun r hr => ?_)
  · rw [getD_range _ _ hr, getD_append_left _ _ _ _ (by omega)]
  · rw [getD_map_range_add _ _ _ hr, ← hu, getD_append_right _ _ _ _ (by omega)]

/-! ### Dot products with unit vectors, diagonal matrices -/

theorem dotProd_replicate_zero (n : Nat) (v : Vec) : dotProd (List.replicate n 0) v = 0 := by
  induction n generalizing v with
  | zero => rfl
  | succ k ih =>
    cases v with
    | nil => rfl
    | cons y ys => simp [List.replicate_succ, dotProd, ih]

theorem dotProd_unit_left (i : Nat) (c : ℚ) (k : Nat) (v : Vec) :
    dotProd (List.replicate i 0 ++ c :: List.replicate k 0) v = c * v.getD i 0 := by
  induction i generalizing v with
  | zero =>
    cases v with
    | nil => simp [dotProd]
    | cons y ys => simp [dotProd, dotProd_replicate_zero]
  | succ n ih =>
    cases v with
    | nil => simp [dotProd]
    | cons y ys => simp [List.replicate_succ, dotProd, ih ys]

theorem dotProd_comm (u v : Vec) : dotProd u v = dotProd v u := by
  induction u generalizing v with
  | nil => cases v <;> rfl
  | cons x xs ih =>
    cases v with
    | nil => rfl
    | cons y ys => simp [dotProd, ih ys, mul_comm]

theorem dotProd_unit_right (j : Nat) (c : ℚ) (k : Nat) (v : Vec) :
    dotProd v (List.replicate j 0 ++ c :: List.replicate k 0) = v.getD j 0 * c := by
  rw [dotProd_comm, dotProd_unit_left, mul_comm]

theorem getD_replicate_zero (n i : Nat) : (List.replicate n (0 : ℚ)).getD i 0 = 0 := by
  induction n generalizing i with
  | zero => rfl
  | succ k ih =>
    cases i with
    | zero => rfl
    | succ m =>
      rw [List.replicate_succ, List.getD_cons_succ]
      exact ih m

theorem length_diagMat (s : Vec) : (diagMat s).length = s.length := by
  induction s with
  | nil => rfl
  | cons x xs ih => simp [diagMat, ih]

theorem widthM_diagMat (s : Vec) : widthM (diagMat s) = s.length := by
  cases s with
  | nil => rfl
  | cons x xs => simp [diagMat, widthM]

theorem diagMat_getD_row (s : Vec) (i : Nat) (h : i < s.length) :
    (diagMat s).getD i [] =
      List.replicate i 0 ++ s.getD i 0 :: List.replicate (s.length - i - 1) 0 := by
  induction s generalizing i with
  | nil => simp at h
  | cons x xs ih =>
    cases i with
    | zero => simp [diagMat]
    | succ n =>
      have h' : n < xs.length := by simpa using h
      rw [diagMat, List.getD_cons_succ,
        List.getD_eq_getElem _ _ (by simpa [length_diagMat] using h'), List.getElem_map,
        ← List.getD_eq_getElem _ _ (by simpa [length_diagMat] using h'), ih n h',
        List.replicate_succ]
      simp

theorem map_cons_getD_zero (L : Mat) :
    (L.map (fun r => (0 : ℚ) :: r)).map (fun row => row.getD 0 0) =
      List.replicate L.length 0 := by
  induction L with
  | nil => rfl
  | cons a as ih =>
    rw [List.map_cons, List.map_cons, List.length_cons, List.replicate_succ,
      List.getD_cons_zero]
    exact congrArg (fun t => (0 : ℚ) :: t) ih

theorem map_cons_getD_succ (L : Mat) (n : Nat) :
    (L.map (fun r => (0 : ℚ) :: r)).map (fun row => row.getD (n + 1) 0) =
      L.map (fun r => r.getD n 0) := by
  induction L with
  | nil => rfl
  | cons a as ih => simp [ih]

theorem colM_diagMat (s : Vec) (j : Nat) (h : j < s.length) :
    colM (diagMat s) j =
      List.replicate j 0 ++ s.getD j 0 :: List.replicate (s.length - j - 1) 0 := by
  induction s generalizing j with
  | nil => simp at h
  | cons x xs ih =>
    cases j with
    | zero =>
      rw [colM, diagMat, List.map_cons, map_cons_getD_zero, length_diagMat]
      simp
    | succ n =>
      have h' : n < xs.length := by simpa using h
      rw [colM, diagMat, List.map_cons, map_cons_getD_succ]
      rw [List.getD_cons_succ, getD_replicate_zero]
      have hcol : (diagMat xs).map (fun r => r.getD n 0) = colM (diagMat xs) n := rfl
      rw [hcol, ih n h', List.replicate_succ]
      simp

/-! ### Entries of matrix products and of the correlation matrix -/

theorem matMul_length (a b : Mat) : (matMul a b).length = a.length := by simp [matMul]

theorem matMul_row (a b : Mat) (i : Nat) (h : i < a.length) :
    (matMul a b).getD i [] =
      (List.range (widthM b)).map (fun j => dotProd (a.getD i []) (colM b j)) := by
  rw [matMul, List.getD_eq_getElem _ _ (by simpa using h), List.getElem_map,
    List.getD_eq_getElem _ _ h]

theorem matMul_row_length (a b : Mat) (i : Nat) (h : i < a.length) :
    ((matMul a b).getD i []).length = widthM b := by
  rw [matMul_row a b i h]; simp

theorem matMul_entry (a b : Mat) (i j : Nat) (hi : i < a.length) (hj : j < widthM b) :
    ((matMul a b).getD i []).getD j 0 = dotProd (a.getD i []) (colM b j) := by
  rw [matMul_row a b i hi, List.getD_eq_getElem _ _ (by simpa using hj), List.getElem_map,
    List.getElem_range]

theorem colM_getD (b : Mat) (i j : Nat) (h : i < b.length) :
    (colM b j).getD i 0 = (b.getD i []).getD j 0 := by
  rw [colM, List.getD_eq_getElem _ _ (by simpa using h), List.getElem_map,
    List.getD_eq_getElem _ _ h]

theorem length_mat_correl (c : ℚ → ℚ → ℚ) (pg : Vec) : (mat_correl c pg).length = pg.length := by
  cases pg with
  | nil => rfl
  | cons p ps => simp [mat_correl, transposeM, widthM]

theorem widthM_mat_correl (c : ℚ → ℚ → ℚ) (pg : Vec) (h : 0 < pg.length) :
    widthM (mat_correl c pg) = pg.length := by
  cases pg with
  | nil => simp at h
  | cons p ps =>
    rw [mat_correl, transposeM]
    have hw : widthM ((p :: ps).map (fun period_cond =>
        (p :: ps).map (fun q => c q period_cond))) = ps.length + 1 := by
      simp [widthM]
    rw [hw, List.range_succ_eq_map, List.map_cons]
    simp [widthM, colM]

theorem mat_correl_entry (c : ℚ → ℚ → ℚ) (pg : Vec) (i j : Nat) (hi : i < pg.length)
    (hj : j < pg.length) :
    ((mat_correl c pg).getD i []).getD j 0 = c (pg.getD i 0) (pg.getD j 0) := by
  have hMw : widthM (pg.map (fun period_cond => pg.map (fun q => c q period_cond)))
      = pg.length := by
    cases pg with
    | nil => simp at hi
    | cons p ps => simp [widthM]
  have hrow : (mat_correl c pg).getD i [] =
      colM (pg.map (fun period_cond => pg.map (fun q => c q period_cond))) i := by
    rw [mat_correl, transposeM,
      List.getD_eq_getElem ((List.range (widthM (pg.map (fun period_cond =>
        pg.map (fun q => c q period_cond))))).map (colM (pg.map (fun period_cond =>
        pg.map (fun q => c q period_cond))))) [] (by simp [hMw]; exact hi),
      List.getElem_map, List.getElem_range]
  rw [hrow, colM_getD (pg.map (fun period_cond => pg.map (fun q => c q period_cond))) j i
    (by simpa using hj)]
  have hMj : (pg.map (fun period_cond => pg.map (fun q => c q period_cond))).getD j [] =
      pg.map (fun q => c q (pg.getD j 0)) := by
    rw [List.getD_eq_getElem (pg.map (fun period_cond =>
      pg.map (fun q => c q period_cond))) [] (by simpa using hj), List.getElem_map,
      List.getD_eq_getElem pg 0 hj]
  rw [hMj, List.getD_eq_getElem (pg.map (fun q => c q (pg.getD j 0))) 0 (by simpa using hi),
    List.getElem_map, List.getD_eq_getElem pg 0 hi]

theorem dcd_entry (c : ℚ → ℚ → ℚ) (ss pgv : Vec) (hlen : ss.length = pgv.length)
    (i j : Nat) (hi : i < pgv.length) (hj : j < pgv.length) :
    ((matMul (matMul (diagMat ss) (mat_correl c pgv)) (diagMat ss)).getD i []).getD j 0
      = ss.getD i 0 * c (pgv.getD i 0) (pgv.getD j 0) * ss.getD j 0 := by
  have hD : (diagMat ss).length = ss.length := length_diagMat ss
  have hDw : widthM (diagMat ss) = ss.length := widthM_diagMat ss
  have hX : (matMul (diagMat ss) (mat_correl c pgv)).length = ss.length := by
    rw [matMul_length, hD]
  rw [matMul_entry _ _ i j (by rw [hX, hlen]; exact hi) (by rw [hDw, hlen]; exact hj)]
  rw [colM_diagMat ss j (by rw [hlen]; exact hj)]
  rw [dotProd_unit_right]
  rw [matMul_entry _ _ i j (by rw [hD, hlen]; exact hi)
    (by rw [widthM_mat_correl c pgv (by omega)]; exact hj)]
  rw [diagMat_getD_row ss i (by rw [hlen]; exact hi)]
  rw [dotProd_unit_left]
  rw [colM_getD _ i j (by rw [length_mat_correl]; exact hi)]
  rw [mat_correl_entry c pgv i j hi hj]

/-! ### Pointwise characterisation of the covariance matrix and its blocks -/

theorem ext_getD {α : Type} (d : α) (a b : List α) (hl : a.length = b.length)
    (h : ∀ i, i < a.length → a.getD i d = b.getD i d) : a = b := by
  apply List.ext_getElem hl
  intro i h1 h2
  have hh := h i h1
  rwa [List.getD_eq_getElem a d h1, List.getD_eq_getElem b d h2] at hh

theorem getD_map_row (A : Mat) (f : Vec → Vec) (i : Nat) (hi : i < A.length) :
    (A.map f).getD i [] = f (A.getD i []) := by
  rw [List.getD_eq_getElem (A.map f) [] (by simpa using hi), List.getElem_map,
    List.getD_eq_getElem A [] hi]

theorem getD_drop {α : Type} (d : α) (l : List α) (n i : Nat) (h : n + i < l.length) :
    (l.drop n).getD i d = l.getD (n + i) d := by
  rw [List.getD_eq_getElem (l.drop n) d (by simp; omega), List.getElem_drop,
    List.getD_eq_getElem l d h]

theorem getD_take {α : Type} (d : α) (l : List α) (n i : Nat) (h1 : i < n)
    (h2 : i < l.length) : (l.take n).getD i d = l.getD i d := by
  rw [List.getD_eq_getElem (l.take n) d (by simp; omega), List.getElem_take,
    List.getD_eq_getElem l d h2]

theorem covBlock_length (c : ℚ → ℚ → ℚ) (pa sa pb sb : Vec) :
    (covBlock c pa sa pb sb).length = pa.length := by simp [covBlock]

theorem covBlock_row (c : ℚ → ℚ → ℚ) (pa sa pb sb : Vec) (i : Nat) (hi : i < pa.length) :
    (covBlock c pa sa pb sb).getD i [] = (List.range pb.length).map
      (fun j => sa.getD i 0 * c (pa.getD i 0) (pb.getD j 0) * sb.getD j 0) := by
  rw [covBlock, List.getD_eq_getElem ((List.range pa.length).map
    (fun i => (List.range pb.length).map
      (fun j => sa.getD i 0 * c (pa.getD i 0) (pb.getD j 0) * sb.getD j 0))) []
    (by simpa using hi), List.getElem_map, List.getElem_range]

theorem covBlock_row_length (c : ℚ → ℚ → ℚ) (pa sa pb sb : Vec) (i : Nat)
    (hi : i < pa.length) : ((covBlock c pa sa pb sb).getD i []).length = pb.length := by
  rw [covBlock_row c pa sa pb sb i hi]; simp

theorem covBlock_entry (c : ℚ → ℚ → ℚ) (pa sa pb sb : Vec) (i j : Nat) (hi : i < pa.length)
    (hj : j < pb.length) :
    ((covBlock c pa sa pb sb).getD i []).getD j 0 =
      sa.getD i 0 * c (pa.getD i 0) (pb.getD j 0) * sb.getD j 0 := by
  rw [covBlock_row c pa sa pb sb i hi,
    List.getD_eq_getElem ((List.range pb.length).map
      (fun j => sa.getD i 0 * c (pa.getD i 0) (pb.getD j 0) * sb.getD j 0)) 0
      (by simpa using hj),
    List.getElem_map, List.getElem_range]

theorem mat_covar_entry (c : ℚ → ℚ → ℚ) (periods ln_stds : Vec) (mask : List Bool)
    (h1 : ln_stds.length = periods.length) (h2 : mask.length = periods.length)
    (i j : Nat) (hi : i < (periods_grouped periods mask).length)
    (hj : j < (periods_grouped periods mask).length) :
    ((mat_covar c periods ln_stds mask).getD i []).getD j 0 =
      (boolSelect ln_stds mask ++ boolSelect ln_stds (negMask mask)).getD i 0 *
      c ((periods_grouped periods mask).getD i 0) ((periods_grouped periods mask).getD j 0) *
      (boolSelect ln_stds mask ++ boolSelect ln_stds (negMask mask)).getD j 0 := by
  have hss : (boolSelect ln_stds mask ++ boolSelect ln_stds (negMask mask)).length =
      (periods_grouped periods mask).length := by
    rw [List.length_append, periods_grouped, List.length_append,
      length_boolSelect mask ln_stds (h1.trans h2.symm),
      length_boolSelect_neg mask ln_stds (h1.trans h2.symm),
      length_boolSelect mask periods h2.symm, length_boolSelect_neg mask periods h2.symm]
  rw [mat_covar, mat_ln_std]
  exact dcd_entry c _ _ hss i j hi hj

theorem mat_covar_length (c : ℚ → ℚ → ℚ) (periods ln_stds : Vec) (mask : List Bool)
    (h1 : ln_stds.length = periods.length) (h2 : mask.length = periods.length) :
    (mat_covar c periods ln_stds mask).length = countTrue mask + countFalse mask := by
  rw [mat_covar, matMul_length, matMul_length, mat_ln_std, length_diagMat, List.length_append,
    length_boolSelect mask ln_stds (h1.trans h2.symm),
    length_boolSelect_neg mask ln_stds (h1.trans h2.symm)]

theorem mat_covar_row_length (c : ℚ → ℚ → ℚ) (periods ln_stds : Vec) (mask : List Bool)
    (h1 : ln_stds.length = periods.length) (h2 : mask.length = periods.length) (i : Nat)
    (hi : i < countTrue mask + countFalse mask) :
    ((mat_covar c periods ln_stds mask).getD i []).length =
      countTrue mask + countFalse mask := by
  rw [mat_covar]
  rw [matMul_row_length _ _ i (by
    rw [matMul_length, mat_ln_std, length_diagMat, List.length_append,
      length_boolSelect mask ln_stds (h1.trans h2.symm),
      length_boolSelect_neg mask ln_stds (h1.trans h2.symm)]
    exact hi)]
  rw [mat_ln_std, widthM_diagMat, List.length_append,
    length_boolSelect mask ln_stds (h1.trans h2.symm),
    length_boolSelect_neg mask ln_stds (h1.trans h2.symm)]

theorem length_periods_grouped (periods : Vec) (mask : List Bool)
    (h2 : mask.length = periods.length) :
    (periods_grouped periods mask).length = countTrue mask + countFalse mask := by
  rw [periods_grouped, List.length_append, length_boolSelect mask periods h2.symm,
    length_boolSelect_neg mask periods h2.symm]

/-- The block `mat_covar[n:, n:]` that the solver inverts is exactly the
covariance matrix over the conditioning (unmasked) periods. -/
theorem mat_covar_22_eq (c : ℚ → ℚ → ℚ) (periods ln_stds : Vec) (mask : List Bool)
    (h1 : ln_stds.length = periods.length) (h2 : mask.length = periods.length) :
    mat_covar_22 c periods ln_stds mask =
      covBlock c (boolSelect periods (negMask mask)) (boolSelect ln_stds (negMask mask))
        (boolSelect periods (negMask mask)) (boolSelect ln_stds (negMask mask)) := by
  have hpF : (boolSelect periods mask).length = countTrue mask :=
    length_boolSelect mask periods h2.symm
  have hpC : (boolSelect periods (negMask mask)).length = countFalse mask :=
    length_boolSelect_neg mask periods h2.symm
  have hsF : (boolSelect ln_stds mask).length = countTrue mask :=
    length_boolSelect mask ln_stds (h1.trans h2.symm)
  have hsC : (boolSelect ln_stds (negMask mask)).length = countFalse mask :=
    length_boolSelect_neg mask ln_stds (h1.trans h2.symm)
  have hpg := length_periods_grouped periods mask h2
  have hmcL := mat_covar_length c periods ln_stds mask h1 h2
  apply ext_getD ([] : Vec)
  · rw [mat_covar_22, List.length_map, List.length_drop, hmcL, covBlock_length, hpC]
    omega
  · intro i hi
    have hicf : i < countFalse mask := by
      rw [mat_covar_22, List.length_map, List.length_drop, hmcL] at hi
      omega
    apply ext_getD (0 : ℚ)
    · rw [mat_covar_22, getD_map_row _ _ i (by rw [List.length_drop, hmcL]; omega),
        getD_drop [] _ _ i (by rw [hmcL]; omega), List.length_drop,
        mat_covar_row_length c periods ln_stds mask h1 h2 _ (by omega),
        covBlock_row_length c _ _ _ _ i (by rw [hpC]; omega), hpC]
      omega
    · intro j hj
      have hjcf : j < countFalse mask := by
        rw [mat_covar_22, getD_map_row _ _ i (by rw [List.length_drop, hmcL]; omega),
          getD_drop [] _ _ i (by rw [hmcL]; omega), List.length_drop,
          mat_covar_row_length c periods ln_stds mask h1 h2 _ (by omega)] at hj
        omega
      rw [covBlock_entry c _ _ _ _ i j (by rw [hpC]; omega) (by rw [hpC]; omega)]
      rw [mat_covar_22, getD_map_row _ _ i (by rw [List.length_drop, hmcL]; omega),
        getD_drop [] _ _ i (by rw [hmcL]; omega),
        getD_drop (0 : ℚ) _ _ j (by
          rw [mat_covar_row_length c periods ln_stds mask h1 h2 _ (by omega)]; omega)]
      rw [mat_covar_entry c periods ln_stds mask h1 h2 _ _ (by rw [hpg]; omega)
        (by rw [hpg]; omega)]
      have e1 : ∀ r, r < countFalse mask →
          (boolSelect ln_stds mask ++ boolSelect ln_stds (negMask mask)).getD
            (countTrue mask + r) 0 = (boolSelect ln_stds (negMask mask)).getD r 0 := by
        intro r hr
        rw [← hsF]
        exact getD_append_right _ _ r 0 (by omega)
      have e2 : ∀ r, r < countFalse mask →
          (periods_grouped periods mask).getD (countTrue mask + r) 0 =
            (boolSelect periods (negMask mask)).getD r 0 := by
        intro r hr
        rw [periods_grouped, ← hpF]
        exact getD_append_right _ _ r 0 (by omega)
      rw [e1 i hicf, e1 j hjcf, e2 i hicf, e2 j hjcf]

/-- The block `mat_covar[0:n, 0:n]` is the covariance matrix over the free
(masked) periods. -/
theorem mat_covar_11_eq (c : ℚ → ℚ → ℚ) (periods ln_stds : Vec) (mask : List Bool)
    (h1 : ln_stds.length = periods.length) (h2 : mask.length = periods.length) :
    mat_covar_11 c periods ln_stds mask =
      covBlock c (boolSelect periods mask) (boolSelect ln_stds mask)
        (boolSelect periods mask) (boolSelect ln_stds mask) := by
  have hpF : (boolSelect periods mask).length = countTrue mask :=
    length_boolSelect mask periods h2.symm
  have hsF : (boolSelect ln_stds mask).length = countTrue mask :=
    length_boolSelect mask ln_stds (h1.trans h2.symm)
  have hpg := length_periods_grouped periods mask h2
  have hmcL := mat_covar_length c periods ln_stds mask h1 h2
  have e1 : ∀ r, r < countTrue mask →
      (boolSelect ln_stds mask ++ boolSelect ln_stds (negMask mask)).getD r 0 =
        (boolSelect ln_stds mask).getD r 0 := by
    intro r hr
    exact getD_append_left _ _ r 0 (by omega)
  have e2 : ∀ r, r < countTrue mask →
      (periods_grouped periods mask).getD r 0 = (boolSelect periods mask).getD r 0 := by
    intro r hr
    rw [periods_grouped]
    exact getD_append_left _ _ r 0 (by omega)
  apply ext_getD ([] : Vec)
  · rw [mat_covar_11, List.length_map, List.length_take, hmcL, covBlock_length, hpF]
    omega
  · intro i hi
    have hict : i < countTrue mask := by
      rw [mat_covar_11, List.length_map, List.length_take, hmcL] at hi
      omega
    apply ext_getD (0 : ℚ)
    · rw [mat_covar_11, getD_map_row _ _ i (by rw [List.length_take, hmcL]; omega),
        getD_take [] _ _ i (by omega) (by rw [hmcL]; omega), List.length_take,
        mat_covar_row_length c periods ln_stds mask h1 h2 _ (by omega),
        covBlock_row_length c _ _ _ _ i (by rw [hpF]; omega), hpF]
      omega
    · intro j hj
      have hjct : j < countTrue mask := by
        rw [mat_covar_11, getD_map_row _ _ i (by rw [List.length_take, hmcL]; omega),
          getD_take [] _ _ i (by omega) (by rw [hmcL]; omega), List.length_take,
          mat_covar_row_length c periods ln_stds mask h1 h2 _ (by omega)] at hj
        omega
      rw [covBlock_entry c _ _ _ _ i j (by rw [hpF]; omega) (by rw [hpF]; omega)]
      rw [mat_covar_11, getD_map_row _ _ i (by rw [List.length_take, hmcL]; omega),
        getD_take [] _ _ i (by omega) (by rw [hmcL]; omega),
        getD_take (0 : ℚ) _ _ j (by omega) (by
          rw [mat_covar_row_length c periods ln_stds mask h1 h2 _ (by omega)]; omega)]
      rw [mat_covar_entry c periods ln_stds mask h1 h2 _ _ (by rw [hpg]; omega)
        (by rw [hpg]; omega)]
      rw [e1 i hict, e1 j hjct, e2 i hict, e2 j hjct]

/-- The block `mat_covar[0:n, n:]` is the free-to-conditioning covariance
block. -/
theorem mat_covar_12_eq (c : ℚ → ℚ → ℚ) (periods ln_stds : Vec) (mask : List Bool)
    (h1 : ln_stds.length = periods.length) (h2 : mask.length = periods.length) :
    mat_covar_12 c periods ln_stds mask =
      covBlock c (boolSelect periods mask) (boolSelect ln_stds mask)
        (boolSelect periods (negMask mask)) (boolSelect ln_stds (negMask mask)) := by
  have hpF : (boolSelect periods mask).length = countTrue mask :=
    length_boolSelect mask periods h2.symm
  have hpC : (boolSelect periods (negMask mask)).length = countFalse mask :=
    length_boolSelect_neg mask periods h2.symm
  have hsF : (boolSelect ln_stds mask).length = countTrue mask :=
    length_boolSelect mask ln_stds (h1.trans h2.symm)
  have hsC : (boolSelect ln_stds (negMask mask)).length = countFalse mask :=
    length_boolSelect_neg mask ln_stds (h1.trans h2.symm)
  have hpg := length_periods_grouped periods mask h2
  have hmcL := mat_covar_length c periods ln_stds mask h1 h2
  have e1L : ∀ r, r < countTrue mask →
      (boolSelect ln_stds mask ++ boolSelect ln_stds (negMask mask)).getD r 0 =
        (boolSelect ln_stds mask).getD r 0 := by
    intro r hr
    exact getD_append_left _ _ r 0 (by omega)
  have e2L : ∀ r, r < countTrue mask →
      (periods_grouped periods mask).getD r 0 = (boolSelect periods mask).getD r 0 := by
    intro r hr
    rw [periods_grouped]
    exact getD_append_left _ _ r 0 (by omega)
  have e1R : ∀ r, r < countFalse mask →
      (boolSelect ln_stds mask ++ boolSelect ln_stds (negMask mask)).getD
        (countTrue mask + r) 0 = (boolSelect ln_stds (negMask mask)).getD r 0 := by
    intro r hr
    rw [← hsF]
    exact getD_append_right _ _ r 0 (by omega)
  have e2R : ∀ r, r < countFalse mask →
      (periods_grouped periods mask).getD (countTrue mask + r) 0 =
        (boolSelect periods (negMask mask)).getD r 0 := by
    intro r hr
    rw [periods_grouped, ← hpF]
    exact getD_append_right _ _ r 0 (by omega)
  apply ext_getD ([] : Vec)
  · rw [mat_covar_12, List.length_map, List.length_take, hmcL, covBlock_length, hpF]
    omega
  · intro i hi
    have hict : i < countTrue mask := by
      rw [mat_covar_12, List.length_map, List.length_take, hmcL] at hi
      omega
    apply ext_getD (0 : ℚ)
    · rw [mat_covar_12, getD_map_row _ _ i (by rw [List.length_take, hmcL]; omega),
        getD_take [] _ _ i (by omega) (by rw [hmcL]; omega), List.length_drop,
        mat_covar_row_length c periods ln_stds mask h1 h2 _ (by omega),
        covBlock_row_length c _ _ _ _ i (by rw [hpF]; omega), hpC]
      omega
    · intro j hj
      have hjcf : j < countFalse mask := by
        rw [mat_covar_12, getD_map_row _ _ i (by rw [List.length_take, hmcL]; omega),
          getD_take [] _ _ i (by omega) (by rw [hmcL]; omega), List.length_drop,
          mat_covar_row_length c periods ln_stds mask h1 h2 _ (by omega)] at hj
        omega
      rw [covBlock_entry c _ _ _ _ i j (by rw [hpF]; omega) (by rw [hpC]; omega)]
      rw [mat_covar_12, getD_map_row _ _ i (by rw [List.length_take, hmcL]; omega),
        getD_take [] _ _ i (by omega) (by rw [hmcL]; omega),
        getD_drop (0 : ℚ) _ _ j (by
          rw [mat_covar_row_length c periods ln_stds mask h1 h2 _ (by omega)]; omega)]
      rw [mat_covar_entry c periods ln_stds mask h1 h2 _ _ (by rw [hpg]; omega)
        (by rw [hpg]; omega)]
      rw [e1L i hict, e1R j hjcf, e2L i hict, e2R j hjcf]

/-- The block `mat_covar[n:, 0:n]` is the conditioning-to-free covariance
block. -/
theorem mat_covar_21_eq (c : ℚ → ℚ → ℚ) (periods ln_stds : Vec) (mask : List Bool)
    (h1 : ln_stds.length = periods.length) (h2 : mask.length = periods.length) :
    mat_covar_21 c periods ln_stds mask =
      covBlock c (boolSelect periods (negMask mask)) (boolSelect ln_stds (negMask mask))
        (boolSelect periods mask) (boolSelect ln_stds mask) := by
  have hpF : (boolSelect periods mask).length = countTrue mask :=
    length_boolSelect mask periods h2.symm
  have hpC : (boolSelect periods (negMask mask)).length = countFalse mask :=
    length_boolSelect_neg mask periods h2.symm
  have hsF : (boolSelect ln_stds mask).length = countTrue mask :=
    length_boolSelect mask ln_stds (h1.trans h2.symm)
  have hsC : (boolSelect ln_stds (negMask mask)).length = countFalse mask :=
    length_boolSelect_neg mask ln_stds (h1.trans h2.symm)
  have hpg := length_periods_grouped periods mask h2
  have hmcL := mat_covar_length c periods ln_stds mask h1 h2
  have e1L : ∀ r, r < countTrue mask →
      (boolSelect ln_stds mask ++ boolSelect ln_stds (negMask mask)).getD r 0 =
        (boolSelect ln_stds mask).getD r 0 := by
    intro r hr
    exact getD_append_left _ _ r 0 (by omega)
  have e2L : ∀ r, r < countTrue mask →
      (periods_grouped periods mask).getD r 0 = (boolSelect periods mask).getD r 0 := by
    intro r hr
    rw [periods_grouped]
    exact getD_append_left _ _ r 0 (by omega)
  have e1R : ∀ r, r < countFalse mask →
      (boolSelect ln_stds mask ++ boolSelect ln_stds (negMask mask)).getD
        (countTrue mask + r) 0 = (boolSelect ln_stds (negMask mask)).getD r 0 := by
    intro r hr
    rw [← hsF]
    exact getD_append_right _ _ r 0 (by omega)
  have e2R : ∀ r, r < countFalse mask →
      (periods_grouped periods mask).getD (countTrue mask + r) 0 =
        (boolSelect periods (negMask mask)).getD r 0 := by
    intro r hr
    rw [periods_grouped, ← hpF]
    exact getD_append_right _ _ r 0 (by omega)
  apply ext_getD ([] : Vec)
  · rw [mat_covar_21, List.length_map, List.length_drop, hmcL, covBlock_length, hpC]
    omega
  · intro i hi
    have hicf : i < countFalse mask := by
      rw [mat_covar_21, List.length_map, List.length_drop, hmcL] at hi
      omega
    apply ext_getD (0 : ℚ)
    · rw [mat_covar_21, getD_map_row _ _ i (by rw [List.length_drop, hmcL]; omega),
        getD_drop [] _ _ i (by rw [hmcL]; omega), List.length_take,
        mat_covar_row_length c periods ln_stds mask h1 h2 _ (by omega),
        covBlock_row_length c _ _ _ _ i (by rw [hpC]; omega), hpF]
      omega
    · intro j hj
      have hjct : j < countTrue mask := by
        rw [mat_covar_21, getD_map_row _ _ i (by rw [List.length_drop, hmcL]; omega),
          getD_drop [] _ _ i (by rw [hmcL]; omega), List.length_take,
          mat_covar_row_length c periods ln_stds mask h1 h2 _ (by omega)] at hj
        omega
      rw [covBlock_entry c _ _ _ _ i j (by rw [hpC]; omega) (by rw [hpF]; omega)]
      rw [mat_covar_21, getD_map_row _ _ i (by rw [List.length_drop, hmcL]; omega),
        getD_drop [] _ _ i (by rw [hmcL]; omega),
        getD_take (0 : ℚ) _ _ j (by omega) (by
          rw [mat_covar_row_length c periods ln_stds mask h1 h2 _ (by omega)]; omega)]
      rw [mat_covar_entry c periods ln_stds mask h1 h2 _ _ (by rw [hpg]; omega)
        (by rw [hpg]; omega)]
      rw [e1R i hicf, e1L j hjct, e2R i hicf, e2L j hjct]

/-! ### Unfolding the solver on the success path, and lengths of the grouped
result vectors -/

theorem calc_ok_elim (correl : ℚ → ℚ → ℚ) (sqrtQ : ℚ → ℚ) (periods ln_psas ln_stds : Vec)
    (lp : MaskedArray) (means stdsOut : Vec)
    (hok : calc_cond_mean_spectrum_vector correl sqrtQ periods ln_psas ln_stds lp =
      .ok (means, stdsOut)) :
    diffsPos periods = true ∧
      ∃ W, matInv (mat_covar_22 correl periods ln_stds lp.mask) = some W ∧
        means = (argsort (periods_grouped periods lp.mask)).map
          (fun i => (ln_psas_cmsv_grouped correl periods ln_psas ln_stds lp W).getD i 0) ∧
        stdsOut = (argsort (periods_grouped periods lp.mask)).map
          (fun i => (ln_stds_cmsv_grouped correl sqrtQ periods ln_stds lp W).getD i 0) := by
  rw [calc_cond_mean_spectrum_vector] at hok
  split at hok
  · exact absurd hok (by simp)
  · rename_i hd
    have hdt : diffsPos periods = true := by
      revert hd
      cases diffsPos periods <;> simp
    refine ⟨hdt, ?_⟩
    split at hok
    · exact absurd hok (by simp)
    · rename_i W hInv
      simp only [Except.ok.injEq, Prod.mk.injEq] at hok
      exact ⟨W, hInv, hok.1.symm, hok.2.symm⟩

theorem length_matVec (a : Mat) (v : Vec) : (matVec a v).length = a.length := by
  simp [matVec]

theorem length_matSub (a b : Mat) : (matSub a b).length = min a.length b.length := by
  simp [matSub]

theorem length_diagOf (m : Mat) : (diagOf m).length = m.length := by simp [diagOf]

theorem length_ln_psas_cmsv_grouped (correl : ℚ → ℚ → ℚ) (periods ln_psas ln_stds : Vec)
    (lp : MaskedArray) (W : Mat) (h1 : ln_stds.length = periods.length)
    (h2 : lp.mask.length = periods.length) (h3 : ln_psas.length = periods.length)
    (h4 : lp.data.length = periods.length) :
    (ln_psas_cmsv_grouped correl periods ln_psas ln_stds lp W).length =
      countTrue lp.mask + countFalse lp.mask ∧
    (zipAdd (boolSelect ln_psas lp.mask)
      (matVec (matMul (mat_covar_12 correl periods ln_stds lp.mask) W)
        (mat_total_resids ln_psas lp))).length = countTrue lp.mask := by
  have hsel : (boolSelect ln_psas lp.mask).length = countTrue lp.mask :=
    length_boolSelect lp.mask ln_psas (h3.trans h2.symm)
  have hmv : (matVec (matMul (mat_covar_12 correl periods ln_stds lp.mask) W)
      (mat_total_resids ln_psas lp)).length = countTrue lp.mask := by
    rw [length_matVec, matMul_length, mat_covar_12, List.length_map, List.length_take,
      mat_covar_length correl periods ln_stds lp.mask h1 h2]
    omega
  have hfst : (zipAdd (boolSelect ln_psas lp.mask)
      (matVec (matMul (mat_covar_12 correl periods ln_stds lp.mask) W)
        (mat_total_resids ln_psas lp))).length = countTrue lp.mask := by
    rw [zipAdd, List.length_zipWith, hsel, hmv]
    omega
  refine ⟨?_, hfst⟩
  rw [ln_psas_cmsv_grouped, List.length_append, hfst,
    length_boolSelect_neg lp.mask lp.data (h4.trans h2.symm)]

theorem length_ln_stds_cmsv_grouped (correl : ℚ → ℚ → ℚ) (sqrtQ : ℚ → ℚ)
    (periods ln_stds : Vec) (lp : MaskedArray) (W : Mat)
    (h1 : ln_stds.length = periods.length) (h2 : lp.mask.length = periods.length) :
    (ln_stds_cmsv_grouped correl sqrtQ periods ln_stds lp W).length =
      countTrue lp.mask + countFalse lp.mask ∧
    ((diagOf (matSub (mat_covar_11 correl periods ln_stds lp.mask)
      (matMul (matMul (mat_covar_12 correl periods ln_stds lp.mask) W)
        (mat_covar_21 correl periods ln_stds lp.mask)))).map sqrtQ).length =
      countTrue lp.mask := by
  have hfst : ((diagOf (matSub (mat_covar_11 correl periods ln_stds lp.mask)
      (matMul (matMul (mat_covar_12 correl periods ln_stds lp.mask) W)
        (mat_covar_21 correl periods ln_stds lp.mask)))).map sqrtQ).length =
      countTrue lp.mask := by
    rw [List.length_map, length_diagOf, length_matSub, mat_covar_11, List.length_map,
      List.length_take, mat_covar_length correl periods ln_stds lp.mask h1 h2,
      matMul_length, matMul_length, mat_covar_12, List.length_map, List.length_take,
      mat_covar_length correl periods ln_stds lp.mask h1 h2]
    omega
  refine ⟨?_, hfst⟩
  rw [ln_stds_cmsv_grouped, List.length_append, hfst, List.length_replicate]

/-! ### Remaining small helpers -/

theorem getD_zipAdd (a b : Vec) (r : Nat) (ha : r < a.length) (hb : r < b.length) :
    (zipAdd a b).getD r 0 = a.getD r 0 + b.getD r 0 := by
  rw [zipAdd, List.getD_eq_getElem (List.zipWith (· + ·) a b) 0
    (by rw [List.length_zipWith]; omega), List.getElem_zipWith,
    List.getD_eq_getElem a 0 ha, List.getD_eq_getElem b 0 hb]

theorem getD_map_val (f : ℚ → ℚ) (l : Vec) (r : Nat) (h : r < l.length) :
    (l.map f).getD r 0 = f (l.getD r 0) := by
  rw [List.getD_eq_getElem (l.map f) 0 (by simpa using h), List.getElem_map,
    List.getD_eq_getElem l 0 h]

theorem countTrue_replicate_false (n : Nat) : countTrue (List.replicate n false) = 0 := by
  induction n with
  | zero => rfl
  | succ k ih => simp [List.replicate_succ, countTrue, ih]

theorem countFalse_replicate_false (n : Nat) : countFalse (List.replicate n false) = n := by
  induction n with
  | zero => rfl
  | succ k ih => simp [List.replicate_succ, countFalse, ih]; omega

theorem negMask_replicate_false (n : Nat) :
    negMask (List.replicate n false) = List.replicate n true := by
  induction n with
  | zero => rfl
  | succ k ih => simp [List.replicate_succ, negMask_cons, ih]

theorem boolSelect_replicate_true {α : Type} (x : List α) (n : Nat) (h : x.length = n) :
    boolSelect x (List.replicate n true) = x := by
  induction n generalizing x with
  | zero =>
    have : x = [] := List.length_eq_zero.mp h
    subst this; rfl
  | succ k ih =>
    cases x with
    | nil => simp at h
    | cons a as =>
      simp only [List.length_cons, Nat.succ.injEq] at h
      rw [List.replicate_succ, boolSelect_cons_true, ih as h]

theorem unselectD_replicate_false {α : Type} (d : α) (n : Nat) (u v : List α)
    (hv : v.length = n) : unselectD d (List.replicate n false) u v = v := by
  induction n generalizing u v with
  | zero =>
    have : v = [] := List.length_eq_zero.mp hv
    subst this; rfl
  | succ k ih =>
    cases v with
    | nil => simp at hv
    | cons c vs =>
      simp only [List.length_cons, Nat.succ.injEq] at hv
      rw [List.replicate_succ, unselectD_cons_false]
      simp only [List.headD_cons, List.tail_cons]
      rw [ih u vs hv]

theorem boolSelect_eq_zip_filter {α : Type} (x : List α) (m : List Bool) :
    boolSelect x m = ((x.zip m).filter (fun pr => pr.2)).map (fun pr => pr.1) := by
  induction x generalizing m with
  | nil => cases m <;> rfl
  | cons a as ih =>
    cases m with
    | nil => rfl
    | cons b bs =>
      cases b with
      | true => simp [boolSelect_cons_true, ih bs]
      | false => simp [boolSelect_cons_false, ih bs]

theorem boolSelect_neg_eq_zip_filter {α : Type} (x : List α) (m : List Bool) :
    boolSelect x (negMask m) = ((x.zip m).filter (fun pr => !pr.2)).map (fun pr => pr.1) := by
  induction x generalizing m with
  | nil => cases m <;> rfl
  | cons a as ih =>
    cases m with
    | nil => rfl
    | cons b bs =>
      cases b with
      | true => simp [negMask_cons, boolSelect_cons_false, ih bs]
      | false => simp [negMask_cons, boolSelect_cons_true, ih bs]

/-! ### The Idriss (2014) attenuation model, `pygmm/idriss_2014.py` -/

/-- Fault mechanism codes.  The constructors stand for the string literals
used by the source: `SS` (strike-slip), `NS` (normal), `RS` (reverse), `U`
(unspecified, mentioned in the source's comments). -/
inductive Mech
  | SS
  | NS
  | RS
  | U
deriving DecidableEq

/-- Parameter names of the Idriss (2014) model. -/
inductive PName
  | dist_rup
  | mag
  | v_s30
  | mechanism
deriving DecidableEq

/-- A parameter value: numeric or categorical. -/
inductive ParamVal
  | num (x : ℚ)
  | cat (m : Mech)

/-- Modelled from the spec: the parameter declarations of `pygmm.model`
(`model.NumericParameter(name, required, min, max)` with optional bounds and
`model.CategoricalParameter(name, required, options, default)`), which is
code of this repository not included under `src/` (spec §4.4, §6). -/
inductive ParamSpec
  | numeric (pname : PName) (required : Bool) (lo hi : Option ℚ)
  | categorical (pname : PName) (required : Bool) (options : List Mech) (dflt : Mech)

/-- The scenario parameters handed to `Idriss2014(**kwds)`. -/
structure IdrissParams where
  dist_rup : ℚ
  mag : ℚ
  v_s30 : ℚ
  mechanism : Mech

/-- Look up the supplied value of a named parameter. -/
def paramValue (p : IdrissParams) : PName → ParamVal
  | .dist_rup => .num p.dist_rup
  | .mag => .num p.mag
  | .v_s30 => .num p.v_s30
  | .mechanism => .cat p.mechanism

/-- The name a declaration validates. -/
def specName : ParamSpec → PName
  | .numeric nm _ _ _ => nm
  | .categorical nm _ _ _ => nm

/-- Modelled from the spec: a single parameter check — a numeric value must
lie within the declared optional bounds, a categorical value must belong to
the declared options (spec §4.4: "params are validated against
per-parameter numeric ranges and categorical domains").  The validation
machinery lives in `pygmm/model.py`, not included under `src/`. -/
def checkParam (p : IdrissParams) : ParamSpec → Bool
  | .numeric nm _ lo hi =>
    match paramValue p nm with
    | .num x =>
      (match lo with
        | none => true
        | some l => decide (l ≤ x)) &&
      (match hi with
        | none => true
        | some h => decide (x ≤ h))
    | .cat _ => false
  | .categorical nm _ opts _ =>
    match paramValue p nm with
    | .cat v => decide (v ∈ opts)
    | .num _ => false

/-- Modelled from the spec: validation of all declared parameters before
evaluation; the first violated declaration fails with an error naming the
offending parameter (spec §4.4: "out-of-range values fail with a
validation error naming the offending parameter", §7 ValidationError). -/
def validateParams : List ParamSpec → IdrissParams → Except PName Unit
  | [], _ => .ok ()
  | s :: rest, p => if checkParam p s then validateParams rest p else .error (specName s)

/-- `Idriss2014.PARAMS`, `pygmm/idriss_2014.py` lines 36–41:
`NumericParameter('dist_rup', True, None, 150)`,
`NumericParameter('mag', True, 5, None)`,
`NumericParameter('v_s30', True, 450, 1200)`,
`CategoricalParameter('mechanism', True, ['SS', 'RS'], 'SS')`. -/
def Idriss2014.PARAMS : List ParamSpec :=
  [ .numeric .dist_rup true none (some 150),
    .numeric .mag true (some 5) none,
    .numeric .v_s30 true (some 450) (some 1200),
    .categorical .mechanism true [.SS, .RS] .SS ]

/-- Lines 72–76 of `_calc_ln_resp`: `flag_mech = 1` for `'RS'`; any other
mechanism (the `SS/NS/U` branch of the comment and docstring) gets `F = 0`. -/
def flag_mech : Mech → ℚ
  | .RS => 1
  | _ => 0

/-! ### The claims -/

/-- C1: for every valid input on which the solver succeeds, at every index
marked as conditioning (numpy mask bit `False`, i.e. an observed target) the
returned conditional log-mean equals the supplied target exactly and the
returned conditional log-std equals zero. -/
theorem kishida_conditioning_values_exact (correl : ℚ → ℚ → ℚ) (sqrtQ : ℚ → ℚ)
    (periods ln_psas ln_stds : Vec) (lp : MaskedArray)
    (h1 : ln_stds.length = periods.length) (h2 : lp.mask.length = periods.length)
    (h3 : ln_psas.length = periods.length) (h4 : lp.data.length = periods.length)
    (means stdsOut : Vec)
    (hok : calc_cond_mean_spectrum_vector correl sqrtQ periods ln_psas ln_stds lp =
      .ok (means, stdsOut))
    (i : Nat) (hi : i < periods.length) (hcond : lp.mask.getD i false = false) :
    means.getD i 0 = lp.data.getD i 0 ∧ stdsOut.getD i 0 = 0 := by
  obtain ⟨hdt, W, hInv, hm, hs⟩ := calc_ok_elim correl sqrtQ periods ln_psas ln_stds lp
    means stdsOut hok
  obtain ⟨hml, hfl⟩ := length_ln_psas_cmsv_grouped correl periods ln_psas ln_stds lp W
    h1 h2 h3 h4
  obtain ⟨hsl, hdl⟩ := length_ln_stds_cmsv_grouped correl sqrtQ periods ln_stds lp W h1 h2
  have hvl : (boolSelect lp.data (negMask lp.mask)).length = countFalse lp.mask :=
    length_boolSelect_neg lp.mask lp.data (h4.trans h2.symm)
  constructor
  · rw [hm, ln_psas_cmsv_grouped, periods_grouped,
      argsort_restore periods lp.mask _ _ h2.symm hdt hfl hvl,
      unselectD_getD_false 0 lp.mask _ _ i hcond (by omega)]
    exact boolSelect_neg_getD_rankFalse lp.mask lp.data i 0 (h4.trans h2.symm) hcond (by omega)
  · rw [hs, ln_stds_cmsv_grouped, periods_grouped,
      argsort_restore periods lp.mask _ _ h2.symm hdt hdl (by simp),
      unselectD_getD_false 0 lp.mask _ _ i hcond (by omega)]
    exact getD_replicate_zero _ _

/-- C5: on success both output vectors have the same length as the input
`periods` (the restoration to the original order is performed by indexing
with `argsort periods_grouped`, which is a permutation of all positions). -/
theorem kishida_output_lengths (correl : ℚ → ℚ → ℚ) (sqrtQ : ℚ → ℚ)
    (periods ln_psas ln_stds : Vec) (lp : MaskedArray)
    (h2 : lp.mask.length = periods.length) (means stdsOut : Vec)
    (hok : calc_cond_mean_spectrum_vector correl sqrtQ periods ln_psas ln_stds lp =
      .ok (means, stdsOut)) :
    means.length = periods.length ∧ stdsOut.length = periods.length := by
  obtain ⟨hdt, W, hInv, hm, hs⟩ := calc_ok_elim correl sqrtQ periods ln_psas ln_stds lp
    means stdsOut hok
  have hlen : (argsort (periods_grouped periods lp.mask)).length = periods.length := by
    rw [argsort, (List.perm_insertionSort (argR (periods_grouped periods lp.mask))
      (List.range (periods_grouped periods lp.mask).length)).length_eq,
      List.length_range, length_periods_grouped periods lp.mask h2,
      countTrue_add_countFalse, h2]
  exact ⟨by rw [hm, List.length_map, hlen], by rw [hs, List.length_map, hlen]⟩

/-- C6: whenever `periods` is not strictly increasing the solver raises the
ordering error (`ValueError`) immediately and returns no result. -/
theorem kishida_ordering_error (correl : ℚ → ℚ → ℚ) (sqrtQ : ℚ → ℚ)
    (periods ln_psas ln_stds : Vec) (lp : MaskedArray)
    (h : ¬ List.Chain' (· < ·) periods) :
    calc_cond_mean_spectrum_vector correl sqrtQ periods ln_psas ln_stds lp =
      .error .orderingError := by
  have hd : diffsPos periods = false := by
    cases hdp : diffsPos periods with
    | false => rfl
    | true => exact absurd ((diffsPos_iff_chain periods).mp hdp) h
  rw [calc_cond_mean_spectrum_vector, if_pos hd]

/-- C2: the covariance block handed to `np.linalg.inv` — `mat_covar_22`, the
only matrix `calc_cond_mean_spectrum_vector` inverts (see its definition) —
is the block of the conditioning periods (the unmasked entries, the ones
with observed values), not the block of the free periods, as the standard
multivariate-Gaussian conditioning identity requires. -/
theorem kishida_inverted_block_is_conditioning_covariance (correl : ℚ → ℚ → ℚ)
    (periods ln_stds : Vec) (mask : List Bool)
    (h1 : ln_stds.length = periods.length) (h2 : mask.length = periods.length) :
    mat_covar_22 correl periods ln_stds mask =
      covBlock correl (boolSelect periods (negMask mask)) (boolSelect ln_stds (negMask mask))
        (boolSelect periods (negMask mask)) (boolSelect ln_stds (negMask mask)) :=
  mat_covar_22_eq correl periods ln_stds mask h1 h2

/-- C3: on success, the conditional log-mean at every free period equals the
unconditioned log-mean plus the free-to-conditioning covariance block times
the inverse of the conditioning-block covariance times the residual vector
(target minus unconditioned log-mean at the conditioning periods), read at
the free period's rank among the free periods. -/
theorem kishida_free_mean_standard_formula (correl : ℚ → ℚ → ℚ) (sqrtQ : ℚ → ℚ)
    (periods ln_psas ln_stds : Vec) (lp : MaskedArray)
    (h1 : ln_stds.length = periods.length) (h2 : lp.mask.length = periods.length)
    (h3 : ln_psas.length = periods.length) (h4 : lp.data.length = periods.length)
    (means stdsOut : Vec)
    (hok : calc_cond_mean_spectrum_vector correl sqrtQ periods ln_psas ln_stds lp =
      .ok (means, stdsOut))
    (W : Mat)
    (hW : matInv (covBlock correl (boolSelect periods (negMask lp.mask))
      (boolSelect ln_stds (negMask lp.mask)) (boolSelect periods (negMask lp.mask))
      (boolSelect ln_stds (negMask lp.mask))) = some W)
    (i : Nat) (hi : i < periods.length) (hfree : lp.mask.getD i false = true) :
    means.getD i 0 = ln_psas.getD i 0 +
      (matVec (matMul (covBlock correl (boolSelect periods lp.mask)
          (boolSelect ln_stds lp.mask) (boolSelect periods (negMask lp.mask))
          (boolSelect ln_stds (negMask lp.mask))) W)
        (zipSub (boolSelect lp.data (negMask lp.mask))
          (boolSelect ln_psas (negMask lp.mask)))).getD (rankTrue lp.mask i) 0 := by
  obtain ⟨hdt, W', hInv, hm, hs⟩ := calc_ok_elim correl sqrtQ periods ln_psas ln_stds lp
    means stdsOut hok
  rw [mat_covar_22_eq correl periods ln_stds lp.mask h1 h2] at hInv
  rw [hInv] at hW
  have hWW : W' = W := Option.some.inj hW
  subst hWW
  obtain ⟨hml, hfl⟩ := length_ln_psas_cmsv_grouped correl periods ln_psas ln_stds lp W'
    h1 h2 h3 h4
  have hvl : (boolSelect lp.data (negMask lp.mask)).length = countFalse lp.mask :=
    length_boolSelect_neg lp.mask lp.data (h4.trans h2.symm)
  have hselA : (boolSelect ln_psas lp.mask).length = countTrue lp.mask :=
    length_boolSelect lp.mask ln_psas (h3.trans h2.symm)
  have hselB : (matVec (matMul (mat_covar_12 correl periods ln_stds lp.mask) W')
      (mat_total_resids ln_psas lp)).length = countTrue lp.mask := by
    rw [length_matVec, matMul_length, mat_covar_12, List.length_map, List.length_take,
      mat_covar_length correl periods ln_stds lp.mask h1 h2]
    omega
  have hrt : countTrue (lp.mask.take i) < countTrue lp.mask :=
    countTrue_take_lt lp.mask i hfree
  rw [hm, ln_psas_cmsv_grouped, periods_grouped,
    argsort_restore periods lp.mask _ _ h2.symm hdt hfl hvl,
    unselectD_getD_true 0 lp.mask _ _ i hfree,
    getD_zipAdd _ _ _ (by omega) (by omega),
    boolSelect_getD_rankTrue lp.mask ln_psas i 0 (h3.trans h2.symm) hfree,
    mat_covar_12_eq correl periods ln_stds lp.mask h1 h2, mat_total_resids, rankTrue]

/-- C4: on success (and with at least one conditioning period, as the spec's
validity conditions require), the conditional log-std at every free period
is the square root of the corresponding diagonal entry of the Schur
complement of the conditioning block: the free-free covariance block minus
the free-to-conditioning block times the inverse of the conditioning block
times the conditioning-to-free block. -/
theorem kishida_free_std_schur_formula (correl : ℚ → ℚ → ℚ) (sqrtQ : ℚ → ℚ)
    (periods ln_psas ln_stds : Vec) (lp : MaskedArray)
    (h1 : ln_stds.length = periods.length) (h2 : lp.mask.length = periods.length)
    (h3 : ln_psas.length = periods.length) (h4 : lp.data.length = periods.length)
    (hnc : 0 < countFalse lp.mask)
    (means stdsOut : Vec)
    (hok : calc_cond_mean_spectrum_vector correl sqrtQ periods ln_psas ln_stds lp =
      .ok (means, stdsOut))
    (W : Mat)
    (hW : matInv (covBlock correl (boolSelect periods (negMask lp.mask))
      (boolSelect ln_stds (negMask lp.mask)) (boolSelect periods (negMask lp.mask))
      (boolSelect ln_stds (negMask lp.mask))) = some W)
    (i : Nat) (hi : i < periods.length) (hfree : lp.mask.getD i false = true) :
    stdsOut.getD i 0 = sqrtQ ((diagOf (matSub
      (covBlock correl (boolSelect periods lp.mask) (boolSelect ln_stds lp.mask)
        (boolSelect periods lp.mask) (boolSelect ln_stds lp.mask))
      (matMul (matMul (covBlock correl (boolSelect periods lp.mask)
          (boolSelect ln_stds lp.mask) (boolSelect periods (negMask lp.mask))
          (boolSelect ln_stds (negMask lp.mask))) W)
        (covBlock correl (boolSelect periods (negMask lp.mask))
          (boolSelect ln_stds (negMask lp.mask)) (boolSelect periods lp.mask)
          (boolSelect ln_stds lp.mask))))).getD (rankTrue lp.mask i) 0) := by
  obtain ⟨hdt, W', hInv, hm, hs⟩ := calc_ok_elim correl sqrtQ periods ln_psas ln_stds lp
    means stdsOut hok
  rw [mat_covar_22_eq correl periods ln_stds lp.mask h1 h2] at hInv
  rw [hInv] at hW
  have hWW : W' = W := Option.some.inj hW
  subst hWW
  obtain ⟨hsl, hdl⟩ := length_ln_stds_cmsv_grouped correl sqrtQ periods ln_stds lp W' h1 h2
  have hrt : countTrue (lp.mask.take i) < countTrue lp.mask :=
    countTrue_take_lt lp.mask i hfree
  have hdiagLen : (diagOf (matSub (mat_covar_11 correl periods ln_stds lp.mask)
      (matMul (matMul (mat_covar_12 correl periods ln_stds lp.mask) W')
        (mat_covar_21 correl periods ln_stds lp.mask)))).length = countTrue lp.mask := by
    rw [length_diagOf, length_matSub, mat_covar_11, List.length_map, List.length_take,
      mat_covar_length correl periods ln_stds lp.mask h1 h2, matMul_length, matMul_length,
      mat_covar_12, List.length_map, List.length_take,
      mat_covar_length correl periods ln_stds lp.mask h1 h2]
    omega
  rw [hs, ln_stds_cmsv_grouped, periods_grouped,
    argsort_restore periods lp.mask _ _ h2.symm hdt hdl (by simp),
    unselectD_getD_true 0 lp.mask _ _ i hfree,
    getD_map_val sqrtQ _ _ (by rw [hdiagLen]; omega),
    mat_covar_11_eq correl periods ln_stds lp.mask h1 h2,
    mat_covar_12_eq correl periods ln_stds lp.mask h1 h2,
    mat_covar_21_eq correl periods ln_stds lp.mask h1 h2, rankTrue]

/-- C7 counterexample: an input in which every period is a conditioning
target (numpy mask all `False`, so there are zero free periods).  The claim
says a configuration error is raised and no result returned; the function
instead returns a result (the targets, with zero stds). -/
theorem kishida_no_configuration_error_counterexample :
    calc_cond_mean_spectrum_vector (fun p q => if p = q then 1 else 0) (fun x => x)
      [1, 2] [0, 0] [1, 1] ⟨[5, 7], [false, false]⟩ = .ok ([5, 7], [0, 0]) := by
  simp [calc_cond_mean_spectrum_vector, matInv, detM, detMAux, dropNth, mat_covar_22,
    mat_covar_12, mat_covar_11, mat_covar_21, mat_covar, mat_ln_std, mat_correl,
    periods_grouped, boolSelect, negMask, countTrue, countFalse, diagMat, matMul, matVec,
    matSub, transposeM, colM, widthM, dotProd, diagOf, zipAdd, zipSub, mat_total_resids,
    ln_psas_cmsv_grouped, ln_stds_cmsv_grouped, argsort, argR, List.insertionSort,
    List.orderedInsert, diffsPos, List.range_succ]

/-- C7 amended: the solver performs no mask-configuration validation.  In
particular, when every period is a conditioning target (mask all `False`)
it raises no error: provided the covariance block it inverts (then the full
covariance matrix) is invertible, it returns the supplied targets as the
conditional means and all-zero conditional stds. -/
theorem kishida_all_conditioning_returns_ok (correl : ℚ → ℚ → ℚ) (sqrtQ : ℚ → ℚ)
    (periods ln_psas ln_stds : Vec) (lp : MaskedArray)
    (h1 : ln_stds.length = periods.length) (h2 : lp.mask.length = periods.length)
    (h3 : ln_psas.length = periods.length) (h4 : lp.data.length = periods.length)
    (hmask : lp.mask = List.replicate periods.length false)
    (hinc : List.Chain' (· < ·) periods)
    (W : Mat)
    (hinv : matInv (mat_covar_22 correl periods ln_stds lp.mask) = some W) :
    calc_cond_mean_spectrum_vector correl sqrtQ periods ln_psas ln_stds lp =
      .ok (lp.data, List.replicate periods.length 0) := by
  have hdt : diffsPos periods = true := (diffsPos_iff_chain periods).mpr hinc
  obtain ⟨hml, hfl⟩ := length_ln_psas_cmsv_grouped correl periods ln_psas ln_stds lp W
    h1 h2 h3 h4
  obtain ⟨hsl, hdl⟩ := length_ln_stds_cmsv_grouped correl sqrtQ periods ln_stds lp W h1 h2
  have hvl : (boolSelect lp.data (negMask lp.mask)).length = countFalse lp.mask :=
    length_boolSelect_neg lp.mask lp.data (h4.trans h2.symm)
  have hctF : countFalse lp.mask = periods.length := by
    rw [hmask, countFalse_replicate_false]
  have hv_eq : boolSelect lp.data (negMask lp.mask) = lp.data := by
    rw [hmask, negMask_replicate_false, boolSelect_replicate_true lp.data periods.length h4]
  have hmeans : (argsort (periods_grouped periods lp.mask)).map
      (fun i => (ln_psas_cmsv_grouped correl periods ln_psas ln_stds lp W).getD i 0) =
        lp.data := by
    rw [ln_psas_cmsv_grouped, periods_grouped,
      argsort_restore periods lp.mask _ _ h2.symm hdt hfl hvl, hv_eq, hmask,
      unselectD_replicate_false 0 periods.length _ lp.data h4]
  have hstds : (argsort (periods_grouped periods lp.mask)).map
      (fun i => (ln_stds_cmsv_grouped correl sqrtQ periods ln_stds lp W).getD i 0) =
        List.replicate periods.length 0 := by
    rw [ln_stds_cmsv_grouped, periods_grouped,
      argsort_restore periods lp.mask _ _ h2.symm hdt hdl (by simp), hctF, hmask,
      unselectD_replicate_false 0 periods.length _ (List.replicate periods.length 0)
        (by simp)]
  rw [calc_cond_mean_spectrum_vector, if_neg (by simp [hdt]), hinv]
  show Except.ok ((argsort (periods_grouped periods lp.mask)).map
      (fun i => (ln_psas_cmsv_grouped correl periods ln_psas ln_stds lp W).getD i 0),
    (argsort (periods_grouped periods lp.mask)).map
      (fun i => (ln_stds_cmsv_grouped correl sqrtQ periods ln_stds lp W).getD i 0)) = _
  rw [hmeans, hstds]

/-- C8 counterexample: the grouped period sequence is not the conditioning
periods followed by the free periods.  With `periods = [1, 2]` and mask
`[True, False]` (period 1 free, period 2 conditioning) the conditioning-
first concatenation is `[2, 1]`, but `periods_grouped` is `[1, 2]`. -/
theorem kishida_grouping_counterexample :
    periods_grouped [1, 2] [true, false] ≠
      boolSelect [1, 2] (negMask [true, false]) ++ boolSelect [1, 2] [true, false] := by
  decide

/-- C8 amended: the internal regrouping places the free (masked) periods
first and the conditioning (unmasked) periods after them, preserving the
relative order within each group. -/
theorem kishida_grouping_free_first (periods : Vec) (mask : List Bool) :
    periods_grouped periods mask =
      ((periods.zip mask).filter (fun pr => pr.2)).map (fun pr => pr.1) ++
      ((periods.zip mask).filter (fun pr => !pr.2)).map (fun pr => pr.1) := by
  rw [periods_grouped, boolSelect_eq_zip_filter, boolSelect_neg_eq_zip_filter]

/-- C10: the conditioning periods are the unmasked entries of the masked
array: the solver's result depends on the stored data only through the
unmasked entries, so the values stored at masked (`True`) positions are
ignored; the targets used are exactly the unmasked values (and there are
`count = ` number of unmasked entries of them, cf. `ln_psas_cond.count()`). -/
theorem kishida_masked_entries_ignored (correl : ℚ → ℚ → ℚ) (sqrtQ : ℚ → ℚ)
    (periods ln_psas ln_stds : Vec) (d1 d2 : Vec) (m : List Bool)
    (h : boolSelect d1 (negMask m) = boolSelect d2 (negMask m)) :
    calc_cond_mean_spectrum_vector correl sqrtQ periods ln_psas ln_stds ⟨d1, m⟩ =
      calc_cond_mean_spectrum_vector correl sqrtQ periods ln_psas ln_stds ⟨d2, m⟩ := by
  dsimp only [calc_cond_mean_spectrum_vector, ln_psas_cmsv_grouped, ln_stds_cmsv_grouped,
    mat_total_resids]
  rw [h]

/-- C9: the code rejects the normal-fault mechanism.  `'NS'` is absent from
the categorical domain declared in `Idriss2014.PARAMS` (`['SS', 'RS']`), so
validation of an otherwise in-range scenario with `mechanism = 'NS'` fails
naming `mechanism` — although the class's own docstring declares `'NS'`
valid ("Valid options: 'SS', 'NS', 'RS'") and `_calc_ln_resp` handles it
(`flag_mech = 0`). -/
theorem idriss_mechanism_ns_rejected :
    validateParams Idriss2014.PARAMS ⟨10, 6, 600, Mech.NS⟩ = .error PName.mechanism ∧
    Mech.NS ∉ [Mech.SS, Mech.RS] ∧ flag_mech Mech.NS = 0 := by
  refine ⟨?_, by decide, rfl⟩
  rfl

/-! ### Witnesses: the claim theorems applied at concrete inputs -/

theorem kishida_conditioning_values_exact_witness :
    ([0, 7] : Vec).getD 1 0 = ([5, 7] : Vec).getD 1 0 ∧ ([1, 0] : Vec).getD 1 0 = 0 :=
  kishida_conditioning_values_exact (fun p q => if p = q then 1 else 0) (fun x => x)
    [1, 2] [0, 0] [1, 1] ⟨[5, 7], [true, false]⟩ rfl rfl rfl rfl [0, 7] [1, 0]
    (by simp [calc_cond_mean_spectrum_vector, matInv, detM, detMAux, dropNth, mat_covar_22,
      mat_covar_12, mat_covar_11, mat_covar_21, mat_covar, mat_ln_std, mat_correl,
      periods_grouped, boolSelect, negMask, countTrue, countFalse, diagMat, matMul, matVec,
      matSub, transposeM, colM, widthM, dotProd, diagOf, zipAdd, zipSub, mat_total_resids,
      ln_psas_cmsv_grouped, ln_stds_cmsv_grouped, argsort, argR, List.insertionSort,
      List.orderedInsert, diffsPos, List.range_succ])
    1 (by decide) rfl

theorem kishida_inverted_block_is_conditioning_covariance_witness :
    mat_covar_22 (fun p q => if p = q then 1 else 0) [1, 2] [1, 1] [true, false] =
      covBlock (fun p q => if p = q then 1 else 0)
        (boolSelect [1, 2] (negMask [true, false])) (boolSelect [1, 1] (negMask [true, false]))
        (boolSelect [1, 2] (negMask [true, false]))
        (boolSelect [1, 1] (negMask [true, false])) :=
  kishida_inverted_block_is_conditioning_covariance (fun p q => if p = q then 1 else 0)
    [1, 2] [1, 1] [true, false] rfl rfl

theorem kishida_free_mean_standard_formula_witness :
    ([0, 7] : Vec).getD 0 0 = ([0, 0] : Vec).getD 0 0 +
      (matVec (matMul (covBlock (fun p q => if p = q then 1 else 0)
          (boolSelect [1, 2] [true, false]) (boolSelect [1, 1] [true, false])
          (boolSelect [1, 2] (negMask [true, false]))
          (boolSelect [1, 1] (negMask [true, false]))) [[1]])
        (zipSub (boolSelect [5, 7] (negMask [true, false]))
          (boolSelect [0, 0] (negMask [true, false])))).getD (rankTrue [true, false] 0) 0 :=
  kishida_free_mean_standard_formula (fun p q => if p = q then 1 else 0) (fun x => x)
    [1, 2] [0, 0] [1, 1] ⟨[5, 7], [true, false]⟩ rfl rfl rfl rfl [0, 7] [1, 0]
    (by simp [calc_cond_mean_spectrum_vector, matInv, detM, detMAux, dropNth, mat_covar_22,
      mat_covar_12, mat_covar_11, mat_covar_21, mat_covar, mat_ln_std, mat_correl,
      periods_grouped, boolSelect, negMask, countTrue, countFalse, diagMat, matMul, matVec,
      matSub, transposeM, colM, widthM, dotProd, diagOf, zipAdd, zipSub, mat_total_resids,
      ln_psas_cmsv_grouped, ln_stds_cmsv_grouped, argsort, argR, List.insertionSort,
      List.orderedInsert, diffsPos, List.range_succ])
    [[1]]
    (by simp [covBlock, matInv, detM, detMAux, dropNth, boolSelect, negMask,
      List.range_succ])
    0 (by decide) rfl

theorem kishida_free_std_schur_formula_witness :
    ([1, 0] : Vec).getD 0 0 = ((diagOf (matSub
      (covBlock (fun p q => if p = q then 1 else 0)
        (boolSelect [1, 2] [true, false]) (boolSelect [1, 1] [true, false])
        (boolSelect [1, 2] [true, false]) (boolSelect [1, 1] [true, false]))
      (matMul (matMul (covBlock (fun p q => if p = q then 1 else 0)
          (boolSelect [1, 2] [true, false]) (boolSelect [1, 1] [true, false])
          (boolSelect [1, 2] (negMask [true, false]))
          (boolSelect [1, 1] (negMask [true, false]))) [[1]])
        (covBlock (fun p q => if p = q then 1 else 0)
          (boolSelect [1, 2] (negMask [true, false]))
          (boolSelect [1, 1] (negMask [true, false]))
          (boolSelect [1, 2] [true, false])
          (boolSelect [1, 1] [true, false]))))).getD (rankTrue [true, false] 0) 0) :=
  kishida_free_std_schur_formula (fun p q => if p = q then 1 else 0) (fun x => x)
    [1, 2] [0, 0] [1, 1] ⟨[5, 7], [true, false]⟩ rfl rfl rfl rfl (by decide) [0, 7] [1, 0]
    (by simp [calc_cond_mean_spectrum_vector, matInv, detM, detMAux, dropNth, mat_covar_22,
      mat_covar_12, mat_covar_11, mat_covar_21, mat_covar, mat_ln_std, mat_correl,
      periods_grouped, boolSelect, negMask, countTrue, countFalse, diagMat, matMul, matVec,
      matSub, transposeM, colM, widthM, dotProd, diagOf, zipAdd, zipSub, mat_total_resids,
      ln_psas_cmsv_grouped, ln_stds_cmsv_grouped, argsort, argR, List.insertionSort,
      List.orderedInsert, diffsPos, List.range_succ])
    [[1]]
    (by simp [covBlock, matInv, detM, detMAux, dropNth, boolSelect, negMask,
      List.range_succ])
    0 (by decide) rfl

theorem kishida_output_lengths_witness :
    ([0, 7] : Vec).length = ([1, 2] : Vec).length ∧
      ([1, 0] : Vec).length = ([1, 2] : Vec).length :=
  kishida_output_lengths (fun p q => if p = q then 1 else 0) (fun x => x)
    [1, 2] [0, 0] [1, 1] ⟨[5, 7], [true, false]⟩ rfl [0, 7] [1, 0]
    (by simp [calc_cond_mean_spectrum_vector, matInv, detM, detMAux, dropNth, mat_covar_22,
      mat_covar_12, mat_covar_11, mat_covar_21, mat_covar, mat_ln_std, mat_correl,
      periods_grouped, boolSelect, negMask, countTrue, countFalse, diagMat, matMul, matVec,
      matSub, transposeM, colM, widthM, dotProd, diagOf, zipAdd, zipSub, mat_total_resids,
      ln_psas_cmsv_grouped, ln_stds_cmsv_grouped, argsort, argR, List.insertionSort,
      List.orderedInsert, diffsPos, List.range_succ])

theorem kishida_ordering_error_witness :
    calc_cond_mean_spectrum_vector (fun p q => if p = q then 1 else 0) (fun x => x)
      [5, 2, 10] [0, 0, 0] [1, 1, 1] ⟨[0, 0, 0], [true, false, false]⟩ =
      .error .orderingError :=
  kishida_ordering_error (fun p q => if p = q then 1 else 0) (fun x => x)
    [5, 2, 10] [0, 0, 0] [1, 1, 1] ⟨[0, 0, 0], [true, false, false]⟩
    (fun h => absurd (List.chain'_cons.mp h).1 (by decide))

theorem kishida_all_conditioning_returns_ok_witness :
    calc_cond_mean_spectrum_vector (fun p q => if p = q then 1 else 0) (fun x => x)
      [1, 2] [0, 0] [1, 1] ⟨[5, 7], [false, false]⟩ = .ok ([5, 7], List.replicate 2 0) :=
  kishida_all_conditioning_returns_ok (fun p q => if p = q then 1 else 0) (fun x => x)
    [1, 2] [0, 0] [1, 1] ⟨[5, 7], [false, false]⟩ rfl rfl rfl rfl rfl
    (List.chain'_pair.mpr (by decide))
    [[1, 0], [0, 1]]
    (by simp [matInv, detM, detMAux, dropNth, mat_covar_22, mat_covar, mat_ln_std,
      mat_correl, periods_grouped, boolSelect, negMask, countTrue, diagMat, matMul,
      transposeM, colM, widthM, dotProd, List.range_succ])

theorem kishida_masked_entries_ignored_witness :
    calc_cond_mean_spectrum_vector (fun p q => if p = q then 1 else 0) (fun x => x)
      [1, 2] [0, 0] [1, 1] ⟨[5, 7], [true, false]⟩ =
    calc_cond_mean_spectrum_vector (fun p q => if p = q then 1 else 0) (fun x => x)
      [1, 2] [0, 0] [1, 1] ⟨[9, 7], [true, false]⟩ :=
  kishida_masked_entries_ignored (fun p q => if p = q then 1 else 0) (fun x => x)
    [1, 2] [0, 0] [1, 1] [5, 7] [9, 7] [true, false] (by decide)
